import Mathlib

/-!
# Verification of the shopsmarsales back-office core

Shallow embedding of the ingestion / reporting backend (src/index.ts) and
proofs of the specification claims about it.

Conventions of the embedding:
* JS strings are modelled as `List Char` (wrapped in `String` at the API
  boundary); all string operations used by the code (`trim`, `includes`,
  `lastIndexOf`, `replace`, `toLowerCase`) are implemented explicitly below.
* JS numbers are modelled as exact rationals `ℚ`; integer counts as `ℤ`.
  The claims under verification do not depend on binary floating-point
  rounding, so this is the standard exact-arithmetic embedding.
* `Date` values are modelled by `JSDate`, a record of the constructor
  arguments `new Date(year, month0, day, hours, minutes, seconds)`.  The
  embedding covers the regime the claims exercise (in-range calendar
  fields, where the JS constructor performs no field rollover).
-/

namespace ShopSmart

/-- Model of a JS `Date` produced by `new Date(y, m0, d, h, mi, s)`:
the constructor arguments, in the no-rollover regime (all claims restrict
to in-range calendar fields, where JS keeps the fields as given). -/
structure JSDate where
  year : ℤ
  month0 : ℤ
  day : ℤ
  hour : ℤ
  minute : ℤ
  second : ℤ
deriving DecidableEq, Repr

/-- Strict lexicographic order on dates; agrees with the chronological
order of the underlying timestamps for normalized (in-range) dates. -/
def dateLtB (a b : JSDate) : Bool :=
  if a.year ≠ b.year then a.year < b.year
  else if a.month0 ≠ b.month0 then a.month0 < b.month0
  else if a.day ≠ b.day then a.day < b.day
  else if a.hour ≠ b.hour then a.hour < b.hour
  else if a.minute ≠ b.minute then a.minute < b.minute
  else a.second < b.second

/-- Non-strict date comparison (`a <= b`), used for Prisma `gte` filters. -/
def dateLeB (a b : JSDate) : Bool :=
  dateLtB a b || a = b

/-! ## JS string primitives -/

/-- JS `\s` / `String.prototype.trim` whitespace (the characters relevant
to this code base: ASCII whitespace and NBSP). -/
def isJsWs (c : Char) : Bool :=
  c = ' ' || c = '\t' || c = '\n' || c = '\r' ||
  c = Char.ofNat 11 || c = Char.ofNat 12 || c = Char.ofNat 160

/-- `String.prototype.trim`. -/
def jsTrim (l : List Char) : List Char :=
  ((l.dropWhile isJsWs).reverse.dropWhile isJsWs).reverse

/-- `s.includes(c)` for a single character. -/
def containsChar (l : List Char) (c : Char) : Bool :=
  l.any (· = c)

/-- `s.lastIndexOf(c)`: index of last occurrence, `-1` when absent. -/
def lastIndexOfAux (c : Char) : List Char → ℤ → ℤ → ℤ
  | [], _, best => best
  | x :: xs, i, best => lastIndexOfAux c xs (i + 1) (if x = c then i else best)

def lastIndexOf (l : List Char) (c : Char) : ℤ :=
  lastIndexOfAux c l 0 (-1)

/-- `s.replace(c, r)` with a plain one-character pattern: replaces only the
first occurrence (JS `replace` without the `g` flag). -/
def replaceFirstChar : List Char → Char → Char → List Char
  | [], _, _ => []
  | x :: xs, c, r => if x = c then r :: xs else x :: replaceFirstChar xs c r

/-- `s.replace(/c/g, '')`: removes every occurrence of a character. -/
def removeAllChar (l : List Char) (c : Char) : List Char :=
  l.filter (· ≠ c)

/-- `s.replace(/R\$\s?/g, '')`: removes each occurrence of `R$` together
with at most one following whitespace character. -/
def stripRS : List Char → List Char
  | 'R' :: '$' :: w :: rest' =>
    if isJsWs w then stripRS rest' else stripRS (w :: rest')
  | 'R' :: '$' :: [] => []
  | c :: rest => c :: stripRS rest
  | [] => []

/-- `s.replace(/BRL\s?/g, '')`. -/
def stripBRL : List Char → List Char
  | 'B' :: 'R' :: 'L' :: w :: rest' =>
    if isJsWs w then stripBRL rest' else stripBRL (w :: rest')
  | 'B' :: 'R' :: 'L' :: [] => []
  | c :: rest => c :: stripBRL rest
  | [] => []

/-- JS `String.prototype.toLowerCase`, restricted to the ASCII and Latin-1
letters that occur in the marketplace status strings. -/
def jsToLowerChar (c : Char) : Char :=
  if 'A' ≤ c ∧ c ≤ 'Z' then Char.ofNat (c.toNat + 32)
  else if Char.ofNat 0xC0 ≤ c ∧ c ≤ Char.ofNat 0xDE ∧ c ≠ Char.ofNat 0xD7 then
    Char.ofNat (c.toNat + 32)
  else c

def jsToLower (l : List Char) : List Char := l.map jsToLowerChar

/-- `a.startsWith(b)` on character lists. -/
def startsWithL : List Char → List Char → Bool
  | _, [] => true
  | [], _ :: _ => false
  | a :: as', b :: bs => a = b && startsWithL as' bs

/-- `s.includes(sub)`: substring containment (JS semantics: the empty
string is contained in everything). -/
def containsSub : List Char → List Char → Bool
  | l, sub =>
    if startsWithL l sub then true
    else match l with
      | [] => false
      | _ :: rest => containsSub rest sub

/-! ## JS number conversion

`Number(string)` restricted to the decimal fragment this code can feed it
(optional sign, decimal digits, one optional dot, optional exponent).
`none` stands for the non-finite results (`NaN`, `±Infinity`), which the
code always collapses to the same fallback via `Number.isFinite`.
Non-decimal literal forms (hex/octal/binary) are outside the inputs the
claims exercise and are not modelled. -/

def digitVal (c : Char) : ℕ := c.toNat - 48

/-- Value of a digit string as a natural number (`foldl` positional value). -/
def digitsVal (l : List Char) : ℕ :=
  l.foldl (fun a c => 10 * a + digitVal c) 0

/-- Value of a digit string as a rational (kernel-reducible `mkRat`). -/
def digitsValQ (l : List Char) : ℚ := mkRat (digitsVal l) 1

/-- Value of a fraction digit string: `digits / 10^len`. -/
def fracVal (l : List Char) : ℚ :=
  mkRat (digitsVal l) (10 ^ l.length)

/-- Parse the optional exponent tail `([eE][+-]?digits)?` and scale by
`10^(±e)`. -/
def jsNumberExpTail (v : ℚ) : List Char → Option ℚ
  | [] => some v
  | e :: rest =>
    if e = 'e' ∨ e = 'E' then
      let (neg, rest') :=
        match rest with
        | '+' :: r => (false, r)
        | '-' :: r => (true, r)
        | r => (false, r)
      let (ds, rest'') := rest'.span Char.isDigit
      if ds = [] ∨ rest'' ≠ [] then none
      else if neg then some (v * mkRat 1 (10 ^ digitsVal ds))
      else some (v * mkRat (10 ^ digitsVal ds) 1)
    else none

/-- Parse an unsigned decimal numeral with optional fraction/exponent. -/
def jsNumberUnsigned (l : List Char) : Option ℚ :=
  let (intPart, r1) := l.span Char.isDigit
  match r1 with
  | [] =>
    if intPart = [] then none
    else jsNumberExpTail (digitsValQ intPart) r1
  | c :: r2 =>
    if c = '.' then
      let (fracPart, r3) := r2.span Char.isDigit
      if intPart = [] ∧ fracPart = [] then none
      else jsNumberExpTail (digitsValQ intPart + fracVal fracPart) r3
    else
      if intPart = [] then none
      else jsNumberExpTail (digitsValQ intPart) r1

/-- `Number(s)` for strings, finite results only (`none` = `NaN`/`±∞`). -/
def jsNumber (l : List Char) : Option ℚ :=
  match jsTrim l with
  | [] => some 0
  | c :: r =>
    if c = '+' then jsNumberUnsigned r
    else if c = '-' then (jsNumberUnsigned r).map (fun q => -q)
    else jsNumberUnsigned (c :: r)

/-- Round-half-up to an integer (`toFixed` tie-breaking: the larger of two
equally near candidates is chosen). -/
def roundHalfUp (x : ℚ) : ℤ := (x + mkRat 1 2).floor

/-- JS `Number(x.toFixed(2))`: round to two decimal places. -/
def jsToFixed2 (x : ℚ) : ℚ := mkRat (roundHalfUp (x * 100)) 100

/-! ## `parseBrNumber` (src/index.ts lines 806–830)

Brazilian-locale number parsing: currency stripping, then if both comma
and dot are present the rightmost is the decimal separator, a lone comma
is the decimal separator, and any non-numeric result yields `0`. -/

def parseBrNumberL (l : List Char) : ℚ :=
  let s0 := jsTrim l
  let s1 := stripBRL (stripRS s0)
  if s1 = [] then 0
  else
    let hasComma := containsChar s1 ','
    let hasDot := containsChar s1 '.'
    let s2 :=
      if hasComma && hasDot then
        if lastIndexOf s1 ',' > lastIndexOf s1 '.' then
          replaceFirstChar (removeAllChar s1 '.') ',' '.'
        else
          removeAllChar s1 ','
      else if hasComma then replaceFirstChar s1 ',' '.'
      else s1
    match jsNumber s2 with
    | some q => q
    | none => 0

/-- String-level wrapper for `parseBrNumber`. -/
def parseBrNumber (s : String) : ℚ := parseBrNumberL s.data

example : parseBrNumber "1.234,56" = 123456 / 100 := by
  simp +decide [parseBrNumber, parseBrNumberL, jsTrim, stripRS, stripBRL, isJsWs,
    containsChar, lastIndexOf, lastIndexOfAux, replaceFirstChar, removeAllChar,
    jsNumber, jsNumberUnsigned, jsNumberExpTail, digitsValQ, digitsVal, digitVal,
    fracVal, List.span, List.span.loop, Rat.mkRat_eq_div]
  norm_num
example : parseBrNumber "" = 0 := by decide
example : parseBrNumber "abc" = 0 := by decide

/-! ## `parseDateFlexible` (src/index.ts lines 832–860)

The string branch: trim, then the anchored regex
`^(\d{2})\/(\d{2})\/(\d{4})(?:\s+(\d{2}):(\d{2})(?::(\d{2}))?)?$` parsed
manually as day/month/year (the source comment: JS native parsing reads
`12/01/2026` as MM/DD, so the dd/mm shape is matched first), falling back
to engine-native `new Date(s)` parsing otherwise.  Native parsing of
non-ISO strings is implementation-defined in ECMAScript, so the embedding
is parameterized by the fallback behavior `native`; the claims hold for
every fallback.  The `Date`/Excel-serial input branches convert
non-string cells and are not exercised by the claims (cells are modelled
as strings). -/

/-- Numeric value of a two-digit group. -/
def twoDigitVal (a b : Char) : ℤ :=
  ((10 * digitVal a + digitVal b : ℕ) : ℤ)

/-- Match `^(\d{2}):(\d{2})(?::(\d{2}))?$` (the time portion). -/
def matchTimeTail : List Char → Option (ℤ × ℤ × ℤ)
  | h1 :: h2 :: ':' :: m1 :: m2 :: rest =>
    if h1.isDigit && h2.isDigit && m1.isDigit && m2.isDigit then
      match rest with
      | [] => some (twoDigitVal h1 h2, twoDigitVal m1 m2, 0)
      | ':' :: s1 :: s2 :: [] =>
        if s1.isDigit && s2.isDigit then
          some (twoDigitVal h1 h2, twoDigitVal m1 m2, twoDigitVal s1 s2)
        else none
      | _ => none
    else none
  | _ => none

/-- Match the full anchored regex
`^(\d{2})\/(\d{2})\/(\d{4})(?:\s+(\d{2}):(\d{2})(?::(\d{2}))?)?$`,
returning `(dd, mm, yyyy, hh, min, ss)` with absent time fields zero
(the code's `Number(m[i] ?? 0)`). -/
def matchDdMmYyyy : List Char → Option (ℤ × ℤ × ℤ × ℤ × ℤ × ℤ)
  | d1 :: d2 :: '/' :: m1 :: m2 :: '/' :: y1 :: y2 :: y3 :: y4 :: rest =>
    if d1.isDigit && d2.isDigit && m1.isDigit && m2.isDigit &&
       y1.isDigit && y2.isDigit && y3.isDigit && y4.isDigit then
      let dd := twoDigitVal d1 d2
      let mm := twoDigitVal m1 m2
      let yyyy : ℤ :=
        ((1000 * digitVal y1 + 100 * digitVal y2 + 10 * digitVal y3 + digitVal y4 : ℕ) : ℤ)
      match rest with
      | [] => some (dd, mm, yyyy, 0, 0, 0)
      | c :: r' =>
        if isJsWs c then
          match matchTimeTail (r'.dropWhile isJsWs) with
          | some (hh, mi, ss) => some (dd, mm, yyyy, hh, mi, ss)
          | none => none
        else none
    else none
  | _ => none

/-- `parseDateFlexible` on a string input, parameterized by the
implementation-defined native `new Date(string)` fallback. -/
def parseDateFlexible (native : List Char → Option JSDate) (s : String) :
    Option JSDate :=
  let t := jsTrim s.data
  if t = [] then none
  else
    match matchDdMmYyyy t with
    | some (dd, mm, yyyy, hh, mi, ss) =>
      -- new Date(yyyy, mm - 1, dd, hh, min, ss)
      some ⟨yyyy, mm - 1, dd, hh, mi, ss⟩
    | none => native t

/-- `parseTimeToParts` (lines 1018–1025): trim then
`^(\d{2}):(\d{2})(?::(\d{2}))?$`, which is exactly the time-tail shape. -/
def parseTimeToParts (s : String) : Option (ℤ × ℤ × ℤ) :=
  let t := jsTrim s.data
  if t = [] then none else matchTimeTail t

/-- `parseDateAndTime` (lines 1027–1033): flexible date, then the time of
day replaced by the separately supplied `Hora` cell when it parses
(`new Date(d.getFullYear(), d.getMonth(), d.getDate(), hh, mm, ss)`). -/
def parseDateAndTime (native : List Char → Option JSDate)
    (dateVal timeVal : Option String) : Option JSDate :=
  match dateVal.bind (parseDateFlexible native) with
  | none => none
  | some d =>
    match timeVal.bind (fun tv => parseTimeToParts tv) with
    | none => some d
    | some (hh, mi, ss) => some ⟨d.year, d.month0, d.day, hh, mi, ss⟩

example :
    parseDateFlexible (fun _ => none) "13/01/2026" =
      some ⟨2026, 0, 13, 0, 0, 0⟩ := by decide
example :
    parseDateFlexible (fun _ => none) "03/04/2026" =
      some ⟨2026, 3, 3, 0, 0, 0⟩ := by decide
example :
    parseDateFlexible (fun _ => none) "03/04/2026 10:30:05" =
      some ⟨2026, 3, 3, 10, 30, 5⟩ := by decide

/-! ## Row cells and `pick` (src/index.ts lines 782–788)

Spreadsheet rows are header-keyed cell maps (`sheet_to_json` with
`defval: ''`); cells are modelled by their string contents (numeric cells
by their decimal rendering).  `pick` probes an ordered list of known
header variants and returns the first cell that is present and does not
trim to the empty string. -/

abbrev RawRow := List (String × String)

def rowGet (row : RawRow) (k : String) : Option String :=
  (row.find? (fun p => p.1 = k)).map (·.2)

def pick (row : RawRow) : List String → Option String
  | [] => none
  | k :: ks =>
    match rowGet row k with
    | some v => if jsTrim v.data ≠ [] then some v else pick row ks
    | none => pick row ks

/-- `String(v).trim()` as a string-to-string operation. -/
def jsTrimStr (s : String) : String := ⟨jsTrim s.data⟩

/-! ## `standardizeData` (src/index.ts lines 1045–1134), tray branch

The upload handler routes `shopee` and `tiktok` files to the dedicated
row normalizers, so the generic `standardizeData` path runs for the
`tray` channel; its tray branch is embedded here.  A row is rejected
(`null`) when the picked order id trims to empty or the date fails to
parse. -/

structure StandardizedSale where
  orderId : String
  orderDate : JSDate
  productName : String
  quantity : ℤ
  totalPrice : ℚ
  status : String
  source : String
  freight : Option ℚ
  paymentType : Option String
deriving DecidableEq, Repr

/-- `parseBrNumber` applied to a possibly-absent cell (`undefined → 0`). -/
def parseBrNumberOpt (v : Option String) : ℚ :=
  match v with
  | none => 0
  | some s => parseBrNumber s

def standardizeDataTray (native : List Char → Option JSDate) (row : RawRow) :
    Option StandardizedSale :=
  let orderIdVal := pick row ["Pedido", "pedido", "Order ID"]
  let orderDateVal := pick row ["Data", "data"]
  let orderTimeVal := pick row ["Hora", "hora"]
  let totalVal := pick row ["Total", "total", "Subtotal produtos", "Subtotal produtos "]
  let freightVal := pick row ["Frete valor", "Frete", "Valor frete"]
  let paymentTypeVal := pick row ["Pagamento tipo", "Pagamento", "Forma pagamento paga"]
  let statusVal := pick row ["Status pedido", "Status", "Status do pedido"]
  let channelVal := pick row ["Canal de venda", "Canal", "Canal"]
  let orderId := match orderIdVal with | some v => jsTrimStr v | none => ""
  let totalPrice := parseBrNumberOpt totalVal
  let freight := freightVal.map parseBrNumber
  let paymentType := paymentTypeVal.map jsTrimStr
  let status := match statusVal with | some v => jsTrimStr v | none => "Desconhecido"
  match parseDateAndTime native orderDateVal orderTimeVal with
  | none => none
  | some orderDate =>
    if orderId = "" then none
    else
      let productName :=
        match channelVal with
        | some v =>
          if jsTrimStr v ≠ "" then "Pedido (" ++ jsTrimStr v ++ ")"
          else "Pedido (Tray)"
        | none => "Pedido (Tray)"
      some {
        orderId := orderId
        orderDate := orderDate
        productName := productName
        quantity := 1
        totalPrice := totalPrice
        status := status
        source := "tray"
        freight := freight
        paymentType := paymentType
      }

/-! ## Generic upsert semantics

The persistence layer is a relational store accessed through
upsert-by-unique-key calls.  A table is a list of keyed rows; a Prisma
`upsert` either rewrites the matching row in place (the `update` data,
modelled as a patch function) or appends a freshly created row (the
`create` data). -/

structure RowKV (K D : Type) where
  key : K
  data : D
deriving DecidableEq, Repr

/-- One `prisma.<table>.upsert` call: the unique key, the `create` record
and the `update` patch (the fields the update names, as a rewrite of the
existing row). -/
structure UpsertOp (K D : Type) where
  k : K
  c : D
  f : D → D

variable {K D : Type} [DecidableEq K]

def hasKey (s : List (RowKV K D)) (k : K) : Bool :=
  s.any (·.key = k)

def applyOp (s : List (RowKV K D)) (op : UpsertOp K D) : List (RowKV K D) :=
  if hasKey s op.k then
    s.map (fun r => if r.key = op.k then ⟨op.k, op.f r.data⟩ else r)
  else s ++ [⟨op.k, op.c⟩]

def applyOps (ops : List (UpsertOp K D)) (s : List (RowKV K D)) :
    List (RowKV K D) :=
  ops.foldl applyOp s

/-- `update` rewrite of a single row when its key matches. -/
def updRow (op : UpsertOp K D) (r : RowKV K D) : RowKV K D :=
  if r.key = op.k then ⟨r.key, op.f r.data⟩ else r

def updChain (ops : List (UpsertOp K D)) (r : RowKV K D) : RowKV K D :=
  ops.foldl (fun r op => updRow op r) r

theorem key_updRow (op : UpsertOp K D) (r : RowKV K D) :
    (updRow op r).key = r.key := by
  unfold updRow; split <;> rfl

theorem key_updChain (ops : List (UpsertOp K D)) (r : RowKV K D) :
    (updChain ops r).key = r.key := by
  induction ops generalizing r with
  | nil => rfl
  | cons op ops ih =>
    show (updChain ops (updRow op r)).key = r.key
    rw [ih, key_updRow]

theorem hasKey_map_updLike (s : List (RowKV K D)) (op : UpsertOp K D) (k : K) :
    hasKey (s.map (fun r => if r.key = op.k then ⟨op.k, op.f r.data⟩ else r)) k
      = hasKey s k := by
  induction s with
  | nil => rfl
  | cons r s ih =>
    simp only [List.map_cons, hasKey, List.any_cons] at *
    rw [ih]
    by_cases h : r.key = op.k
    · simp [h]
    · simp [h]

theorem hasKey_applyOp (s : List (RowKV K D)) (op : UpsertOp K D) (k : K) :
    hasKey (applyOp s op) k = (hasKey s k || decide (k = op.k)) := by
  unfold applyOp
  split
  · next hpres =>
    rw [hasKey_map_updLike]
    by_cases h : k = op.k
    · subst h; simp [hpres]
    · simp [h]
  · simp [hasKey, List.any_append, List.any_cons, Eq.comm]

theorem hasKey_applyOps_mono (ops : List (UpsertOp K D)) (s : List (RowKV K D))
    (k : K) (h : hasKey s k = true) : hasKey (applyOps ops s) k = true := by
  induction ops generalizing s with
  | nil => exact h
  | cons op ops ih =>
    show hasKey (applyOps ops (applyOp s op)) k = true
    exact ih _ (by rw [hasKey_applyOp, h, Bool.true_or])

theorem hasKey_applyOps_of_op (ops : List (UpsertOp K D)) (s : List (RowKV K D))
    (op : UpsertOp K D) (hop : op ∈ ops) :
    hasKey (applyOps ops s) op.k = true := by
  induction ops generalizing s with
  | nil => cases hop
  | cons op' ops ih =>
    show hasKey (applyOps ops (applyOp s op')) op.k = true
    rcases List.mem_cons.mp hop with h | h
    · subst h
      exact hasKey_applyOps_mono ops _ _ (by rw [hasKey_applyOp]; simp)
    · exact ih _ h

theorem applyOp_allPresent (s : List (RowKV K D)) (op : UpsertOp K D)
    (h : hasKey s op.k = true) : applyOp s op = s.map (updRow op) := by
  unfold applyOp
  rw [if_pos h]
  apply List.map_congr_left
  intro r _
  unfold updRow
  by_cases hk : r.key = op.k
  · simp [hk]
  · simp [hk]

theorem hasKey_map_keyPreserving (s : List (RowKV K D)) (f : RowKV K D → RowKV K D)
    (hf : ∀ r, (f r).key = r.key) (k : K) :
    hasKey (s.map f) k = hasKey s k := by
  induction s with
  | nil => rfl
  | cons r s ih =>
    simp only [List.map_cons, hasKey, List.any_cons] at *
    rw [ih, hf]

theorem applyOps_allPresent (ops : List (UpsertOp K D)) (s : List (RowKV K D))
    (h : ∀ op ∈ ops, hasKey s op.k = true) :
    applyOps ops s = s.map (updChain ops) := by
  induction ops generalizing s with
  | nil => exact (List.map_id s).symm
  | cons op ops ih =>
    show applyOps ops (applyOp s op) = _
    rw [applyOp_allPresent s op (h op (List.mem_cons_self _ _))]
    rw [ih]
    · rw [List.map_map]
      rfl
    · intro op' hop'
      rw [hasKey_map_keyPreserving s (updRow op) (key_updRow op) op'.k]
      exact h op' (List.mem_cons_of_mem _ hop')

theorem mem_applyOps_untouched (ops : List (UpsertOp K D))
    (t : List (RowKV K D)) (r : RowKV K D) (hr : r ∈ applyOps ops t)
    (hk : ∀ op ∈ ops, op.k ≠ r.key) : r ∈ t := by
  induction ops generalizing t with
  | nil => exact hr
  | cons op ops ih =>
    have hr' : r ∈ applyOp t op :=
      ih _ hr (fun op' h => hk op' (List.mem_cons_of_mem _ h))
    have hne : op.k ≠ r.key := hk op (List.mem_cons_self _ _)
    unfold applyOp at hr'
    split at hr'
    · rcases List.mem_map.mp hr' with ⟨r0, hr0, hEq⟩
      by_cases h0 : r0.key = op.k
      · rw [if_pos h0] at hEq
        exact absurd (by rw [← hEq]) hne
      · rw [if_neg h0] at hEq
        rw [← hEq]; exact hr0
    · rcases List.mem_append.mp hr' with h | h
      · exact h
      · simp only [List.mem_singleton] at h
        exact absurd (by rw [h]) hne

theorem not_hasKey_forall (s : List (RowKV K D)) (k : K)
    (h : hasKey s k = false) : ∀ r ∈ s, r.key ≠ k := by
  intro r hr hk
  unfold hasKey at h
  rw [List.any_eq_false] at h
  have := h r hr
  simp [hk] at this

/-- Replaying pure writes preserves the row count as well. -/
theorem applyOps_idem_length (ops : List (UpsertOp K D))
    (hpres : ∀ op ∈ ops, hasKey (applyOps ops s) op.k = true) :
    (applyOps ops (applyOps ops s)).length = (applyOps ops s).length := by
  rw [applyOps_allPresent ops _ hpres, List.length_map]

/-! ## Partial-record update patches

A Prisma `update` object names a subset of a row's columns; it is a
partial record, modelled as a patch whose fields are `Option`s.  Patch
application and (later-wins) patch composition obey the algebraic laws
below, from which replaying a batch of upserts is proved to be a no-op
whenever each op's update patch fixes its create record — exactly the
upsert shape the ingestion handlers use. -/

/-- Apply one optionally-set field. -/
def patchField {α : Type} (o : Option α) (x : α) : α := o.getD x

theorem patchField_or {α : Type} (a b : Option α) (x : α) :
    patchField (a.or b) x = patchField a (patchField b x) := by
  cases a <;> rfl

theorem patchField_self {α : Type} (a : Option α) (x : α) :
    patchField a (patchField a x) = patchField a x := by
  cases a <;> rfl

/-- A patch structure on row data `D`: `applyP` applies a patch, `mergeP p q`
is `q` overridden by the later patch `p`, `emptyP` names no field. -/
structure PatchAlg (P D : Type) where
  applyP : P → D → D
  mergeP : P → P → P
  emptyP : P
  apply_merge : ∀ p q x, applyP (mergeP p q) x = applyP p (applyP q x)
  merge_self : ∀ p, mergeP p p = p
  merge_assoc : ∀ p q r, mergeP (mergeP p q) r = mergeP p (mergeP q r)
  merge_empty : ∀ p, mergeP p emptyP = p
  empty_merge : ∀ p, mergeP emptyP p = p
  apply_empty : ∀ x, applyP emptyP x = x

/-- An upsert whose update side is a partial record. -/
structure PatchOp (K D P : Type) where
  k : K
  c : D
  p : P

def PatchOp.toUpsertOp {K D P : Type} (A : PatchAlg P D) (op : PatchOp K D P) :
    UpsertOp K D :=
  ⟨op.k, op.c, A.applyP op.p⟩

variable {P : Type}

def applyPOps (A : PatchAlg P D) (ops : List (PatchOp K D P))
    (s : List (RowKV K D)) : List (RowKV K D) :=
  applyOps (ops.map (PatchOp.toUpsertOp A)) s

/-- The combined effect of all update patches of `ops` at key `k`
(later ops override earlier ones). -/
def chainPatch (A : PatchAlg P D) : List (PatchOp K D P) → K → P
  | [], _ => A.emptyP
  | op :: ops, k =>
    if op.k = k then A.mergeP (chainPatch A ops k) op.p else chainPatch A ops k

theorem chainPatch_no_key (A : PatchAlg P D) (ops : List (PatchOp K D P))
    (k : K) (h : ∀ op ∈ ops, op.k ≠ k) : chainPatch A ops k = A.emptyP := by
  induction ops with
  | nil => rfl
  | cons op ops ih =>
    unfold chainPatch
    rw [if_neg (h op (List.mem_cons_self _ _))]
    exact ih (fun o ho => h o (List.mem_cons_of_mem _ ho))

theorem chainPatch_append (A : PatchAlg P D) (ops : List (PatchOp K D P))
    (op : PatchOp K D P) (k : K) :
    chainPatch A (ops ++ [op]) k =
      if op.k = k then A.mergeP op.p (chainPatch A ops k)
      else chainPatch A ops k := by
  induction ops with
  | nil =>
    simp only [List.nil_append, chainPatch]
    by_cases hk : op.k = k
    · rw [if_pos hk, if_pos hk, A.empty_merge, A.merge_empty]
    · rw [if_neg hk, if_neg hk]
  | cons op' ops ih =>
    by_cases h' : op'.k = k
    · by_cases hk : op.k = k
      · rw [List.cons_append, chainPatch, if_pos h', ih, if_pos hk, if_pos hk,
          chainPatch, if_pos h']
        exact A.merge_assoc _ _ _
      · rw [List.cons_append, chainPatch, if_pos h', ih, if_neg hk, if_neg hk,
          chainPatch, if_pos h']
    · by_cases hk : op.k = k
      · rw [List.cons_append, chainPatch, if_neg h', ih, if_pos hk, if_pos hk,
          chainPatch, if_neg h']
      · rw [List.cons_append, chainPatch, if_neg h', ih, if_neg hk, if_neg hk,
          chainPatch, if_neg h']

/-- A chain of row updates is the application of the combined patch. -/
theorem updChain_chainPatch (A : PatchAlg P D) (ops : List (PatchOp K D P))
    (r : RowKV K D) :
    updChain (ops.map (PatchOp.toUpsertOp A)) r =
      ⟨r.key, A.applyP (chainPatch A ops r.key) r.data⟩ := by
  induction ops generalizing r with
  | nil =>
    show r = _
    rw [chainPatch, A.apply_empty]
  | cons op ops ih =>
    show updChain (ops.map (PatchOp.toUpsertOp A)) (updRow (op.toUpsertOp A) r) = _
    rw [ih]
    by_cases hk : r.key = op.k
    · simp only [updRow, PatchOp.toUpsertOp, if_pos hk, chainPatch,
        if_pos hk.symm, A.apply_merge]
    · simp only [updRow, PatchOp.toUpsertOp, if_neg hk, chainPatch,
        if_neg (fun h => hk (Eq.symm h))]

/-- Every row produced by a batch of patch upserts whose updates fix
their creates is a fixed point of the combined patch at its key. -/
theorem applyPOps_data_image (A : PatchAlg P D) (ops : List (PatchOp K D P))
    (hfix : ∀ op ∈ ops, A.applyP op.p op.c = op.c) (s : List (RowKV K D)) :
    ∀ r ∈ applyPOps A ops s, ∃ x, r.data = A.applyP (chainPatch A ops r.key) x := by
  induction ops using List.reverseRecOn with
  | nil =>
    intro r hr
    exact ⟨r.data, by rw [chainPatch, A.apply_empty]⟩
  | append_singleton ops op ih =>
    intro r hr
    have hfix' : ∀ o ∈ ops, A.applyP o.p o.c = o.c :=
      fun o ho => hfix o (List.mem_append_left _ ho)
    have hsplit : applyPOps A (ops ++ [op]) s =
        applyOp (applyPOps A ops s) (op.toUpsertOp A) := by
      unfold applyPOps applyOps
      rw [List.map_append, List.foldl_append]
      rfl
    rw [hsplit] at hr
    set t := applyPOps A ops s with ht
    unfold applyOp at hr
    split at hr
    · -- update branch: the key is present in t
      rcases List.mem_map.mp hr with ⟨r0, hr0, hEq⟩
      simp only [PatchOp.toUpsertOp] at hEq
      by_cases h0 : r0.key = op.k
      · rw [if_pos h0] at hEq
        obtain ⟨x, hx⟩ := ih hfix' r0 hr0
        refine ⟨x, ?_⟩
        rw [← hEq]
        simp only [PatchOp.toUpsertOp]
        rw [chainPatch_append, if_pos rfl, hx, h0, A.apply_merge]
      · rw [if_neg h0] at hEq
        obtain ⟨x, hx⟩ := ih hfix' r0 hr0
        subst hEq
        refine ⟨x, ?_⟩
        rw [chainPatch_append, if_neg (fun h => h0 h.symm)]
        exact hx
    · -- create branch: no row and no earlier op carries this key
      next hnk =>
      have hnk' : hasKey t op.k = false := by
        simpa [PatchOp.toUpsertOp] using hnk
      rcases List.mem_append.mp hr with hin | hin
      · obtain ⟨x, hx⟩ := ih hfix' r hin
        refine ⟨x, ?_⟩
        have hne : op.k ≠ r.key :=
          fun h => (not_hasKey_forall t op.k hnk' r hin) h.symm
        rw [chainPatch_append, if_neg hne]
        exact hx
      · simp only [List.mem_singleton] at hin
        subst hin
        have hnone : ∀ o ∈ ops, o.k ≠ op.k := by
          intro o ho hk
          have hmem := hasKey_applyOps_of_op (ops.map (PatchOp.toUpsertOp A)) s
            (o.toUpsertOp A) (List.mem_map_of_mem _ ho)
          simp only [PatchOp.toUpsertOp] at hmem
          rw [hk] at hmem
          rw [show applyOps (ops.map (PatchOp.toUpsertOp A)) s = t from rfl] at hmem
          rw [hmem] at hnk'
          cases hnk'
        refine ⟨op.c, ?_⟩
        show (PatchOp.toUpsertOp A op).c =
          A.applyP (chainPatch A (ops ++ [op]) (PatchOp.toUpsertOp A op).k) op.c
        show op.c = A.applyP (chainPatch A (ops ++ [op]) op.k) op.c
        rw [chainPatch_append, if_pos rfl,
          chainPatch_no_key A ops op.k hnone, A.merge_empty]
        exact (hfix op (List.mem_append_right _ (List.mem_singleton.mpr rfl))).symm

/-- Replaying a batch of patch upserts is a no-op: the second pass finds
every key present and rewrites every row to the value it already has. -/
theorem applyPOps_idem (A : PatchAlg P D) (ops : List (PatchOp K D P))
    (hfix : ∀ op ∈ ops, A.applyP op.p op.c = op.c) (s : List (RowKV K D)) :
    applyPOps A ops (applyPOps A ops s) = applyPOps A ops s := by
  have hpres : ∀ uop ∈ ops.map (PatchOp.toUpsertOp A),
      hasKey (applyOps (ops.map (PatchOp.toUpsertOp A)) s) uop.k = true :=
    fun uop huop => hasKey_applyOps_of_op _ s uop huop
  show applyOps (ops.map (PatchOp.toUpsertOp A))
      (applyOps (ops.map (PatchOp.toUpsertOp A)) s) = _
  rw [applyOps_allPresent _ _ hpres]
  have hfixrow : ∀ r ∈ applyOps (ops.map (PatchOp.toUpsertOp A)) s,
      updChain (ops.map (PatchOp.toUpsertOp A)) r = r := by
    intro r hr
    rw [updChain_chainPatch]
    obtain ⟨x, hx⟩ := applyPOps_data_image A ops hfix s r hr
    have hfp : A.applyP (chainPatch A ops r.key) r.data = r.data := by
      rw [hx, ← A.apply_merge, A.merge_self]
    rw [hfp]
  calc (applyOps (ops.map (PatchOp.toUpsertOp A)) s).map
        (updChain (ops.map (PatchOp.toUpsertOp A)))
      = (applyOps (ops.map (PatchOp.toUpsertOp A)) s).map id :=
        List.map_congr_left hfixrow
    _ = _ := List.map_id _

/-! ## The canonical Order / OrderItem store

`Order` is unique on `(orderId, source)` and `OrderItem` on
`(orderId, source, productCode)` (the Prisma compound keys
`orderId_source` and `orderId_source_productCode`).  Products are
referenced by their natural key `{source}_{productCode}` (the composite
`code` column that `ensureProduct` upserts by; the surrogate integer id
is stable across upserts, so the natural key is a faithful stand-in). -/

structure OrderData where
  orderDate : JSDate
  status : String
  productName : String
  quantity : ℤ
  totalPrice : ℚ
  commissionFee : Option ℚ
  serviceFee : Option ℚ
  freight : Option ℚ
  paymentType : Option String
deriving DecidableEq, Repr

structure ItemData where
  name : String
  unitPrice : ℚ
  quantity : ℤ
  totalPrice : ℚ
  discount : Option ℚ
  productId : Option String
deriving DecidableEq, Repr

abbrev OrderKey := String × String
abbrev ItemKey := String × String × String

structure Store where
  orders : List (RowKV OrderKey OrderData)
  items : List (RowKV ItemKey ItemData)
deriving DecidableEq, Repr

/-- A Prisma partial update record on the Order table: `some v` = the
update names the column with value `v`, `none` = the column is absent
from the update object and keeps its stored value. -/
structure OrderPatch where
  orderDate : Option JSDate
  status : Option String
  productName : Option String
  quantity : Option ℤ
  totalPrice : Option ℚ
  commissionFee : Option (Option ℚ)
  serviceFee : Option (Option ℚ)
  freight : Option (Option ℚ)
  paymentType : Option (Option String)
deriving DecidableEq, Repr

def applyOrderPatch (p : OrderPatch) (d : OrderData) : OrderData :=
  { orderDate := patchField p.orderDate d.orderDate
    status := patchField p.status d.status
    productName := patchField p.productName d.productName
    quantity := patchField p.quantity d.quantity
    totalPrice := patchField p.totalPrice d.totalPrice
    commissionFee := patchField p.commissionFee d.commissionFee
    serviceFee := patchField p.serviceFee d.serviceFee
    freight := patchField p.freight d.freight
    paymentType := patchField p.paymentType d.paymentType }

def mergeOrderPatch (p q : OrderPatch) : OrderPatch :=
  { orderDate := p.orderDate.or q.orderDate
    status := p.status.or q.status
    productName := p.productName.or q.productName
    quantity := p.quantity.or q.quantity
    totalPrice := p.totalPrice.or q.totalPrice
    commissionFee := p.commissionFee.or q.commissionFee
    serviceFee := p.serviceFee.or q.serviceFee
    freight := p.freight.or q.freight
    paymentType := p.paymentType.or q.paymentType }

def emptyOrderPatch : OrderPatch :=
  ⟨none, none, none, none, none, none, none, none, none⟩

def orderPatchAlg : PatchAlg OrderPatch OrderData where
  applyP := applyOrderPatch
  mergeP := mergeOrderPatch
  emptyP := emptyOrderPatch
  apply_merge := by
    intro p q x
    simp [applyOrderPatch, mergeOrderPatch, patchField_or]
  merge_self := by
    intro p
    simp [mergeOrderPatch, Option.or_self]
  merge_assoc := by
    intro p q r
    simp [mergeOrderPatch, Option.or_assoc]
  merge_empty := by
    intro p
    simp [mergeOrderPatch, emptyOrderPatch, Option.or_none]
  empty_merge := by
    intro p
    simp [mergeOrderPatch, emptyOrderPatch, Option.none_or]
  apply_empty := by
    intro x
    simp [applyOrderPatch, emptyOrderPatch, patchField]

/-- A Prisma partial update record on the OrderItem table. -/
structure ItemPatch where
  name : Option String
  unitPrice : Option ℚ
  quantity : Option ℤ
  totalPrice : Option ℚ
  discount : Option (Option ℚ)
  productId : Option (Option String)
deriving DecidableEq, Repr

def applyItemPatch (p : ItemPatch) (d : ItemData) : ItemData :=
  { name := patchField p.name d.name
    unitPrice := patchField p.unitPrice d.unitPrice
    quantity := patchField p.quantity d.quantity
    totalPrice := patchField p.totalPrice d.totalPrice
    discount := patchField p.discount d.discount
    productId := patchField p.productId d.productId }

def mergeItemPatch (p q : ItemPatch) : ItemPatch :=
  { name := p.name.or q.name
    unitPrice := p.unitPrice.or q.unitPrice
    quantity := p.quantity.or q.quantity
    totalPrice := p.totalPrice.or q.totalPrice
    discount := p.discount.or q.discount
    productId := p.productId.or q.productId }

def emptyItemPatch : ItemPatch := ⟨none, none, none, none, none, none⟩

def itemPatchAlg : PatchAlg ItemPatch ItemData where
  applyP := applyItemPatch
  mergeP := mergeItemPatch
  emptyP := emptyItemPatch
  apply_merge := by
    intro p q x
    simp [applyItemPatch, mergeItemPatch, patchField_or]
  merge_self := by
    intro p
    simp [mergeItemPatch, Option.or_self]
  merge_assoc := by
    intro p q r
    simp [mergeItemPatch, Option.or_assoc]
  merge_empty := by
    intro p
    simp [mergeItemPatch, emptyItemPatch, Option.or_none]
  empty_merge := by
    intro p
    simp [mergeItemPatch, emptyItemPatch, Option.none_or]
  apply_empty := by
    intro x
    simp [applyItemPatch, emptyItemPatch, patchField]

/-! ## Shopee ingestion (src/index.ts lines 1269–1369)

Rows are standardized (`standardizeShopeeRow`), aggregated per order id
into order-level totals, then the orders and the per-row items are
upserted.  The ingest functions below take the standardized row lists:
file parsing is deterministic, so ingesting the identical file twice is
applying the same row list twice. -/

structure StandardizedShopeeItem where
  orderId : String
  orderDate : JSDate
  status : String
  commissionFee : Option ℚ
  serviceFee : Option ℚ
  productCode : String
  name : String
  unitPrice : ℚ
  quantity : ℤ
  totalPrice : ℚ
  discount : Option ℚ
deriving DecidableEq, Repr

structure ShopeeAgg where
  orderDate : JSDate
  status : String
  commissionFee : Option ℚ
  serviceFee : Option ℚ
  totalPrice : ℚ
  productName : String
  quantity : ℤ
deriving DecidableEq, Repr

/-- One step of the `byOrder` Map accumulation: on first sight of an
order id the aggregate is seeded from the row (totals starting at zero),
then the row's total and quantity are added. -/
def shopeeAddRow (m : List (String × ShopeeAgg)) (r : StandardizedShopeeItem) :
    List (String × ShopeeAgg) :=
  if m.any (·.1 = r.orderId) then
    m.map (fun p =>
      if p.1 = r.orderId then
        (p.1, { p.2 with
          totalPrice := p.2.totalPrice + r.totalPrice
          quantity := p.2.quantity + r.quantity })
      else p)
  else
    m ++ [(r.orderId,
      { orderDate := r.orderDate
        status := r.status
        commissionFee := r.commissionFee
        serviceFee := r.serviceFee
        totalPrice := r.totalPrice
        productName := r.name
        quantity := r.quantity })]

/-- The `byOrder` map in JS `Map` insertion order. -/
def shopeeByOrder (rows : List StandardizedShopeeItem) :
    List (String × ShopeeAgg) :=
  rows.foldl shopeeAddRow []

/-- The order record the shopee upsert writes (`create` side; columns the
call does not name default to NULL). -/
def shopeeOrderData (agg : ShopeeAgg) : OrderData :=
  { orderDate := agg.orderDate
    status := agg.status
    productName := agg.productName
    quantity := agg.quantity
    totalPrice := jsToFixed2 agg.totalPrice
    commissionFee := agg.commissionFee
    serviceFee := agg.serviceFee
    freight := none
    paymentType := none }

def shopeeOrderOps (rows : List StandardizedShopeeItem) :
    List (PatchOp OrderKey OrderData OrderPatch) :=
  (shopeeByOrder rows).map (fun p =>
    { k := (p.1, "shopee")
      c := shopeeOrderData p.2
      -- the update names the same seven columns, leaving the rest as-is
      p := { orderDate := some p.2.orderDate
             status := some p.2.status
             totalPrice := some (jsToFixed2 p.2.totalPrice)
             quantity := some p.2.quantity
             productName := some p.2.productName
             commissionFee := some p.2.commissionFee
             serviceFee := some p.2.serviceFee
             freight := none
             paymentType := none } })

def shopeeItemOps (rows : List StandardizedShopeeItem) :
    List (PatchOp ItemKey ItemData ItemPatch) :=
  rows.map (fun r =>
    let code := "shopee_" ++ r.productCode
    { k := (r.orderId, "shopee", r.productCode)
      -- create: `discount: r.discount ?? 0`
      c := { name := r.name
             unitPrice := r.unitPrice
             quantity := r.quantity
             totalPrice := r.totalPrice
             discount := some (r.discount.getD 0)
             productId := some code }
      -- update: `discount: r.discount` (NULL when the row carries none)
      p := { name := some r.name
             unitPrice := some r.unitPrice
             quantity := some r.quantity
             totalPrice := some r.totalPrice
             discount := some r.discount
             productId := some (some code) } })

def ingestShopee (rows : List StandardizedShopeeItem) (s : Store) : Store :=
  { orders := applyPOps orderPatchAlg (shopeeOrderOps rows) s.orders
    items := applyPOps itemPatchAlg (shopeeItemOps rows) s.items }

/-! ## TikTok ingestion (src/index.ts lines 1371–1461)

Same shape as shopee, except the order total prefers the raw sheet's
`Order Amount` cell of the first raw row bearing the order id
(`amountOf`, a function of the uploaded file), falling back to the sum
of the rows' line totals. -/

structure StandardizedTiktokItem where
  orderId : String
  orderDate : JSDate
  status : String
  productCode : String
  name : String
  unitPrice : ℚ
  quantity : ℤ
  totalPrice : ℚ
  discount : Option ℚ
deriving DecidableEq, Repr

structure TiktokAgg where
  orderDate : JSDate
  status : String
  orderAmount : ℚ
  productName : String
  quantity : ℤ
deriving DecidableEq, Repr

def tiktokAddRow (amountOf : String → ℚ) (m : List (String × TiktokAgg))
    (r : StandardizedTiktokItem) : List (String × TiktokAgg) :=
  if m.any (·.1 = r.orderId) then
    m.map (fun p =>
      if p.1 = r.orderId then (p.1, { p.2 with quantity := p.2.quantity + r.quantity })
      else p)
  else
    m ++ [(r.orderId,
      { orderDate := r.orderDate
        status := r.status
        orderAmount := amountOf r.orderId
        productName := r.name
        quantity := r.quantity })]

def tiktokByOrder (amountOf : String → ℚ) (rows : List StandardizedTiktokItem) :
    List (String × TiktokAgg) :=
  rows.foldl (tiktokAddRow amountOf) []

/-- `orderTotal`: the raw order amount when positive, else the sum of the
standardized rows' line totals for the order. -/
def tiktokOrderTotal (rows : List StandardizedTiktokItem) (orderId : String)
    (agg : TiktokAgg) : ℚ :=
  if agg.orderAmount > 0 then agg.orderAmount
  else (rows.filter (·.orderId = orderId)).foldl (fun acc r => acc + r.totalPrice) 0

def tiktokOrderData (rows : List StandardizedTiktokItem) (orderId : String)
    (agg : TiktokAgg) : OrderData :=
  { orderDate := agg.orderDate
    status := agg.status
    productName := agg.productName
    quantity := agg.quantity
    totalPrice := jsToFixed2 (tiktokOrderTotal rows orderId agg)
    commissionFee := none
    serviceFee := none
    freight := none
    paymentType := none }

def tiktokOrderOps (amountOf : String → ℚ) (rows : List StandardizedTiktokItem) :
    List (PatchOp OrderKey OrderData OrderPatch) :=
  (tiktokByOrder amountOf rows).map (fun p =>
    { k := (p.1, "tiktok")
      c := tiktokOrderData rows p.1 p.2
      -- the update names orderDate/status/totalPrice/quantity/productName
      p := { orderDate := some p.2.orderDate
             status := some p.2.status
             totalPrice := some (jsToFixed2 (tiktokOrderTotal rows p.1 p.2))
             quantity := some p.2.quantity
             productName := some p.2.productName
             commissionFee := none
             serviceFee := none
             freight := none
             paymentType := none } })

def tiktokItemOps (rows : List StandardizedTiktokItem) :
    List (PatchOp ItemKey ItemData ItemPatch) :=
  rows.map (fun r =>
    let code := "tiktok_" ++ r.productCode
    { k := (r.orderId, "tiktok", r.productCode)
      c := { name := r.name
             unitPrice := r.unitPrice
             quantity := r.quantity
             totalPrice := r.totalPrice
             discount := some (r.discount.getD 0)
             productId := some code }
      p := { name := some r.name
             unitPrice := some r.unitPrice
             quantity := some r.quantity
             totalPrice := some r.totalPrice
             discount := some r.discount
             productId := some (some code) } })

def ingestTiktok (amountOf : String → ℚ) (rows : List StandardizedTiktokItem)
    (s : Store) : Store :=
  { orders := applyPOps orderPatchAlg (tiktokOrderOps amountOf rows) s.orders
    items := applyPOps itemPatchAlg (tiktokItemOps rows) s.items }

/-! ## Tray primary ingestion (src/index.ts lines 1463–1499)

The generic path: each standardized sale becomes one order upsert with
`update: data, create: data`; `freight`/`paymentType` are included in
the data only when present on the sale. -/

def trayOrderData (sale : StandardizedSale) : OrderData :=
  { orderDate := sale.orderDate
    status := sale.status
    productName := sale.productName
    quantity := sale.quantity
    totalPrice := sale.totalPrice
    commissionFee := none
    serviceFee := none
    freight := sale.freight
    paymentType := sale.paymentType }

def trayOrderOps (sales : List StandardizedSale) :
    List (PatchOp OrderKey OrderData OrderPatch) :=
  sales.map (fun sale =>
    { k := (sale.orderId, sale.source)
      c := trayOrderData sale
      -- `if (sale.freight != null) data.freight = sale.freight`, likewise
      -- paymentType: those columns enter the update only when present
      p := { orderDate := some sale.orderDate
             status := some sale.status
             productName := some sale.productName
             quantity := some sale.quantity
             totalPrice := some sale.totalPrice
             commissionFee := none
             serviceFee := none
             freight := sale.freight.map some
             paymentType := sale.paymentType.map some } })

/-- The `/api/upload` handler for `source=tray`: standardize every sheet
row, silently dropping the `null`s, upsert the surviving sales, and
answer `{ message, count }` with `count = results.length` (the number of
executed upsert operations). -/
def uploadTray (native : List Char → Option JSDate) (jsonData : List RawRow)
    (s : Store) : Store × ℕ :=
  let sales := (jsonData.map (standardizeDataTray native)).reduceOption
  ({ orders := applyPOps orderPatchAlg (trayOrderOps sales) s.orders,
     items := s.items },
    (trayOrderOps sales).length)

/-! ## Tray items-only ingestion, `/api/upload-items` (lines 1509–1607)

Upserts `OrderItem` rows keyed `(orderId, 'tray', productCode)` and then
an `order.updateMany` per order id setting only the aggregate quantity
and product-name label.  The order's totalPrice is deliberately not
touched.  (`standardizeTrayItem`'s name cleaning happens before this
function's input; the handler is modelled from the standardized items.) -/

structure StandardizedOrderItem where
  orderId : String
  source : String
  productCode : String
  name : String
  unitPrice : ℚ
  quantity : ℤ
  totalPrice : ℚ
deriving DecidableEq, Repr

/-- `byOrder`: sum of quantities and the first item's name per order. -/
def trayItemsAddRow (m : List (String × ℤ × String))
    (it : StandardizedOrderItem) : List (String × ℤ × String) :=
  if m.any (·.1 = it.orderId) then
    m.map (fun p => if p.1 = it.orderId then (p.1, p.2.1 + it.quantity, p.2.2) else p)
  else m ++ [(it.orderId, it.quantity, it.name)]

def trayItemsByOrder (items : List StandardizedOrderItem) :
    List (String × ℤ × String) :=
  items.foldl trayItemsAddRow []

def trayItemOps (items : List StandardizedOrderItem) :
    List (PatchOp ItemKey ItemData ItemPatch) :=
  items.map (fun it =>
    let code := "tray_" ++ it.productCode
    { k := (it.orderId, "tray", it.productCode)
      -- create: `{ ...it, productId }`; the discount column keeps its
      -- schema default (modelled NULL)
      c := { name := it.name
             unitPrice := it.unitPrice
             quantity := it.quantity
             totalPrice := it.totalPrice
             discount := none
             productId := some code }
      -- update names name/unitPrice/quantity/totalPrice/productId only
      p := { name := some it.name
             unitPrice := some it.unitPrice
             quantity := some it.quantity
             totalPrice := some it.totalPrice
             discount := none
             productId := some (some code) } })

/-- The `order.updateMany` calls: rewrite quantity and productName of the
matching `(orderId, 'tray')` orders; no order is created. -/
def applyTrayOrderMeta (m : List (String × ℤ × String))
    (orders : List (RowKV OrderKey OrderData)) :
    List (RowKV OrderKey OrderData) :=
  m.foldl (fun os p =>
    os.map (fun r =>
      if r.key = (p.1, "tray") then
        ⟨r.key, { r.data with quantity := p.2.1, productName := p.2.2 }⟩
      else r)) orders

def uploadTrayItems (items : List StandardizedOrderItem) (s : Store) : Store :=
  { orders := applyTrayOrderMeta (trayItemsByOrder items) s.orders
    items := applyPOps itemPatchAlg (trayItemOps items) s.items }

/-! ## Idempotence of the ingestion upserts (claim C1) -/

theorem shopeeOrderOps_fix (rows : List StandardizedShopeeItem) :
    ∀ op ∈ shopeeOrderOps rows,
      orderPatchAlg.applyP op.p op.c = op.c := by
  intro op hop
  rcases List.mem_map.mp hop with ⟨pr, -, rfl⟩
  simp [orderPatchAlg, applyOrderPatch, shopeeOrderData, patchField]

theorem tiktokOrderOps_fix (amountOf : String → ℚ)
    (rows : List StandardizedTiktokItem) :
    ∀ op ∈ tiktokOrderOps amountOf rows,
      orderPatchAlg.applyP op.p op.c = op.c := by
  intro op hop
  rcases List.mem_map.mp hop with ⟨pr, -, rfl⟩
  simp [orderPatchAlg, applyOrderPatch, tiktokOrderData, patchField]

theorem trayOrderOps_fix (sales : List StandardizedSale) :
    ∀ op ∈ trayOrderOps sales,
      orderPatchAlg.applyP op.p op.c = op.c := by
  intro op hop
  rcases List.mem_map.mp hop with ⟨sale, -, rfl⟩
  cases hf : sale.freight <;> cases hp : sale.paymentType <;>
    simp [orderPatchAlg, applyOrderPatch, trayOrderData, patchField, hf, hp]

theorem trayItemOps_fix (items : List StandardizedOrderItem) :
    ∀ op ∈ trayItemOps items,
      itemPatchAlg.applyP op.p op.c = op.c := by
  intro op hop
  rcases List.mem_map.mp hop with ⟨it, -, rfl⟩
  simp [itemPatchAlg, applyItemPatch, patchField]

/-- The shopee/tiktok item upserts fix their creates exactly when the row
carries a discount (`create` writes `discount ?? 0`, `update` writes
`discount`). -/
theorem shopeeItemOps_fix (rows : List StandardizedShopeeItem)
    (hdisc : ∀ r ∈ rows, r.discount ≠ none) :
    ∀ op ∈ shopeeItemOps rows,
      itemPatchAlg.applyP op.p op.c = op.c := by
  intro op hop
  rcases List.mem_map.mp hop with ⟨r, hr, rfl⟩
  rcases Option.ne_none_iff_exists'.mp (hdisc r hr) with ⟨x, hx⟩
  simp [itemPatchAlg, applyItemPatch, patchField, hx]

theorem tiktokItemOps_fix (rows : List StandardizedTiktokItem)
    (hdisc : ∀ r ∈ rows, r.discount ≠ none) :
    ∀ op ∈ tiktokItemOps rows,
      itemPatchAlg.applyP op.p op.c = op.c := by
  intro op hop
  rcases List.mem_map.mp hop with ⟨r, hr, rfl⟩
  rcases Option.ne_none_iff_exists'.mp (hdisc r hr) with ⟨x, hx⟩
  simp [itemPatchAlg, applyItemPatch, patchField, hx]

/-- One `order.updateMany` rewrite. -/
def applyMetaOne (p : String × ℤ × String) (r : RowKV OrderKey OrderData) :
    RowKV OrderKey OrderData :=
  if r.key = (p.1, "tray") then
    ⟨r.key, { r.data with quantity := p.2.1, productName := p.2.2 }⟩
  else r

theorem applyTrayOrderMeta_eq_map (m : List (String × ℤ × String))
    (os : List (RowKV OrderKey OrderData)) :
    applyTrayOrderMeta m os =
      os.map (fun r => m.foldl (fun r p => applyMetaOne p r) r) := by
  induction m generalizing os with
  | nil => exact (List.map_id os).symm
  | cons p m ih =>
    show applyTrayOrderMeta m (os.map _) = _
    rw [ih, List.map_map]
    apply List.map_congr_left
    intro r _
    rfl

theorem key_metaFold (m : List (String × ℤ × String))
    (r : RowKV OrderKey OrderData) :
    (m.foldl (fun r p => applyMetaOne p r) r).key = r.key := by
  induction m generalizing r with
  | nil => rfl
  | cons p m ih =>
    show (m.foldl _ (applyMetaOne p r)).key = r.key
    rw [ih]
    unfold applyMetaOne
    split <;> rfl

theorem metaFold_no_match (m : List (String × ℤ × String))
    (r : RowKV OrderKey OrderData) (h : ∀ p ∈ m, (p.1, "tray") ≠ r.key) :
    m.foldl (fun r p => applyMetaOne p r) r = r := by
  induction m generalizing r with
  | nil => rfl
  | cons p m ih =>
    show m.foldl _ (applyMetaOne p r) = r
    have : applyMetaOne p r = r := by
      unfold applyMetaOne
      rw [if_neg (fun hk => h p (List.mem_cons_self _ _) hk.symm)]
    rw [this]
    exact ih r (fun p' h' => h p' (List.mem_cons_of_mem _ h'))

/-- When some `updateMany` entry matches the row's key, the fold rewrites
exactly the two columns to the last matching entry's values. -/
theorem metaFold_last_match (m : List (String × ℤ × String))
    (r : RowKV OrderKey OrderData) (p0 : String × ℤ × String)
    (h : m.reverse.find? (fun p => (p.1, "tray") = r.key) = some p0) :
    m.foldl (fun r p => applyMetaOne p r) r =
      ⟨r.key, { r.data with quantity := p0.2.1, productName := p0.2.2 }⟩ := by
  induction m using List.reverseRecOn generalizing r p0 with
  | nil => cases h
  | append_singleton m p ih =>
    rw [List.reverse_append, List.reverse_singleton, List.singleton_append,
      List.find?_cons] at h
    rw [List.foldl_append]
    simp only [List.foldl_cons, List.foldl_nil]
    by_cases hk : (p.1, "tray") = r.key
    · rw [decide_eq_true hk] at h
      have h' : some p = some p0 := h
      injection h' with h'
      subst h'
      cases hfind : m.reverse.find? (fun q => ((q.1, "tray") = r.key : Bool)) with
      | none =>
        have hnm : ∀ q ∈ m, (q.1, "tray") ≠ r.key := by
          intro q hq
          have := List.find?_eq_none.mp hfind q (List.mem_reverse.mpr hq)
          simpa using this
        rw [metaFold_no_match m r hnm]
        unfold applyMetaOne
        rw [if_pos hk.symm]
      | some q0 =>
        rw [ih r q0 hfind]
        unfold applyMetaOne
        rw [if_pos (hk.symm : r.key = (p.1, "tray"))]
    · rw [decide_eq_false hk] at h
      have h' : m.reverse.find? (fun q => ((q.1, "tray") = r.key : Bool)) = some p0 := h
      rw [ih r p0 h']
      unfold applyMetaOne
      rw [if_neg (fun hkk : r.key = (p.1, "tray") => hk hkk.symm)]

/-- The `updateMany` rewrites are absolute assignments of the same two
columns, so replaying the fold is a no-op. -/
theorem metaFold_idem (m : List (String × ℤ × String))
    (r : RowKV OrderKey OrderData) :
    m.foldl (fun r p => applyMetaOne p r) (m.foldl (fun r p => applyMetaOne p r) r)
      = m.foldl (fun r p => applyMetaOne p r) r := by
  cases hfind : m.reverse.find? (fun p => ((p.1, "tray") = r.key : Bool)) with
  | none =>
    have hnm : ∀ q ∈ m, (q.1, "tray") ≠ r.key := by
      intro q hq
      have := List.find?_eq_none.mp hfind q (List.mem_reverse.mpr hq)
      simpa using this
    rw [metaFold_no_match m r hnm, metaFold_no_match m r hnm]
  | some p0 =>
    rw [metaFold_last_match m r p0 hfind]
    rw [metaFold_last_match m _ p0 (by simpa using hfind)]

theorem applyTrayOrderMeta_idem (m : List (String × ℤ × String))
    (os : List (RowKV OrderKey OrderData)) :
    applyTrayOrderMeta m (applyTrayOrderMeta m os) = applyTrayOrderMeta m os := by
  rw [applyTrayOrderMeta_eq_map, applyTrayOrderMeta_eq_map, List.map_map]
  apply List.map_congr_left
  intro r _
  exact metaFold_idem m r

/-- Replaying a batch of patch upserts preserves the row count. -/
theorem applyPOps_replay_length {P : Type} (A : PatchAlg P D)
    (ops : List (PatchOp K D P)) (t : List (RowKV K D)) :
    (applyPOps A ops (applyPOps A ops t)).length = (applyPOps A ops t).length := by
  show (applyOps (ops.map (PatchOp.toUpsertOp A))
    (applyOps (ops.map (PatchOp.toUpsertOp A)) t)).length
    = (applyOps (ops.map (PatchOp.toUpsertOp A)) t).length
  rw [applyOps_allPresent _ _
    (fun uop huop => hasKey_applyOps_of_op _ t uop huop), List.length_map]

/-- Claim C1 (amended): ingesting the identical file a second time leaves
the Order table exactly unchanged on every channel path, preserves the
OrderItem row count, and leaves the OrderItem rows exactly unchanged
provided every shopee/tiktok row carries a discount value; the tray
primary upload and the items-only upload are exactly idempotent without
any proviso.  (Unamended, the claim fails only on the OrderItem discount
column: a shopee/tiktok row without a discount is created with
`discount = 0` and rewritten to `NULL` by the re-ingest's update; see the
counterexample.) -/
theorem C1_ingest_idempotent_amended :
    (∀ rows s, (ingestShopee rows (ingestShopee rows s)).orders
        = (ingestShopee rows s).orders)
  ∧ (∀ rows s, (ingestShopee rows (ingestShopee rows s)).items.length
        = (ingestShopee rows s).items.length)
  ∧ (∀ rows s, (∀ r ∈ rows, r.discount ≠ none) →
        ingestShopee rows (ingestShopee rows s) = ingestShopee rows s)
  ∧ (∀ amountOf rows s,
        (ingestTiktok amountOf rows (ingestTiktok amountOf rows s)).orders
          = (ingestTiktok amountOf rows s).orders)
  ∧ (∀ amountOf rows s,
        (ingestTiktok amountOf rows (ingestTiktok amountOf rows s)).items.length
          = (ingestTiktok amountOf rows s).items.length)
  ∧ (∀ amountOf rows s, (∀ r ∈ rows, r.discount ≠ none) →
        ingestTiktok amountOf rows (ingestTiktok amountOf rows s)
          = ingestTiktok amountOf rows s)
  ∧ (∀ native jsonData s,
        (uploadTray native jsonData (uploadTray native jsonData s).1).1
          = (uploadTray native jsonData s).1
      ∧ (uploadTray native jsonData (uploadTray native jsonData s).1).2
          = (uploadTray native jsonData s).2)
  ∧ (∀ items s,
        uploadTrayItems items (uploadTrayItems items s) = uploadTrayItems items s) := by
  refine ⟨?_, ?_, ?_, ?_, ?_, ?_, ?_, ?_⟩
  · intro rows s
    simp only [ingestShopee]
    exact applyPOps_idem _ _ (shopeeOrderOps_fix rows) s.orders
  · intro rows s
    simp only [ingestShopee]
    exact applyPOps_replay_length itemPatchAlg (shopeeItemOps rows) s.items
  · intro rows s hd
    simp only [ingestShopee]
    rw [applyPOps_idem _ _ (shopeeOrderOps_fix rows) s.orders,
      applyPOps_idem _ _ (shopeeItemOps_fix rows hd) s.items]
  · intro amountOf rows s
    simp only [ingestTiktok]
    exact applyPOps_idem _ _ (tiktokOrderOps_fix amountOf rows) s.orders
  · intro amountOf rows s
    simp only [ingestTiktok]
    exact applyPOps_replay_length itemPatchAlg (tiktokItemOps rows) s.items
  · intro amountOf rows s hd
    simp only [ingestTiktok]
    rw [applyPOps_idem _ _ (tiktokOrderOps_fix amountOf rows) s.orders,
      applyPOps_idem _ _ (tiktokItemOps_fix rows hd) s.items]
  · intro native jsonData s
    refine ⟨?_, rfl⟩
    simp only [uploadTray]
    rw [applyPOps_idem _ _
      (trayOrderOps_fix ((jsonData.map (standardizeDataTray native)).reduceOption))
      s.orders]
  · intro items s
    simp only [uploadTrayItems]
    rw [applyTrayOrderMeta_idem, applyPOps_idem _ _ (trayItemOps_fix items) s.items]

/-- A shopee row carrying no discount cell (`discount = null`). -/
def rowC1 : StandardizedShopeeItem :=
  { orderId := "A"
    orderDate := ⟨2026, 0, 1, 0, 0, 0⟩
    status := "Completed"
    commissionFee := none
    serviceFee := none
    productCode := "SKU1"
    name := "P"
    unitPrice := mkRat 10 1
    quantity := 1
    totalPrice := mkRat 10 1
    discount := none }

/-- Claim C1, counterexample to the claim as stated: re-ingesting the
one-row shopee file whose row carries no discount changes the stored
OrderItem (its discount goes from `0`, written at creation, to `NULL`,
written by the update), so the store is not exactly as after the first
ingestion. -/
theorem C1_counterexample :
    (ingestShopee [rowC1] (ingestShopee [rowC1] (Store.mk [] []))).items
      ≠ (ingestShopee [rowC1] (Store.mk [] [])).items := by
  decide

/-- A shopee row carrying a discount value. -/
def rowC1w : StandardizedShopeeItem :=
  { rowC1 with discount := some (mkRat 5 1) }

/-- Witness for claim C1's amended theorem at a concrete input. -/
theorem C1_witness :
    ingestShopee [rowC1w] (ingestShopee [rowC1w] (Store.mk [] []))
      = ingestShopee [rowC1w] (Store.mk [] []) :=
  C1_ingest_idempotent_amended.2.2.1 [rowC1w] (Store.mk [] []) (by decide)

/-! ## Claim C9: the items-only upload's frame effect on orders -/

theorem forall2_self_map {α : Type} (R : α → α → Prop) (f : α → α)
    (l : List α) (h : ∀ x ∈ l, R x (f x)) : List.Forall₂ R l (l.map f) := by
  induction l with
  | nil => exact List.Forall₂.nil
  | cons x l ih =>
    exact List.Forall₂.cons (h x (List.mem_cons_self _ _))
      (ih (fun y hy => h y (List.mem_cons_of_mem _ hy)))

/-- The fold of `updateMany` rewrites touches nothing but the quantity and
product-name columns of the row. -/
theorem metaFold_frame (m : List (String × ℤ × String))
    (r : RowKV OrderKey OrderData) :
    (m.foldl (fun r p => applyMetaOne p r) r).key = r.key
    ∧ (m.foldl (fun r p => applyMetaOne p r) r).data.totalPrice = r.data.totalPrice
    ∧ (m.foldl (fun r p => applyMetaOne p r) r).data.orderDate = r.data.orderDate
    ∧ (m.foldl (fun r p => applyMetaOne p r) r).data.status = r.data.status
    ∧ (m.foldl (fun r p => applyMetaOne p r) r).data.freight = r.data.freight
    ∧ (m.foldl (fun r p => applyMetaOne p r) r).data.paymentType = r.data.paymentType
    ∧ (m.foldl (fun r p => applyMetaOne p r) r).data.commissionFee = r.data.commissionFee
    ∧ (m.foldl (fun r p => applyMetaOne p r) r).data.serviceFee = r.data.serviceFee := by
  cases hfind : m.reverse.find? (fun p => ((p.1, "tray") = r.key : Bool)) with
  | none =>
    have hnm : ∀ q ∈ m, (q.1, "tray") ≠ r.key := by
      intro q hq
      have := List.find?_eq_none.mp hfind q (List.mem_reverse.mpr hq)
      simpa using this
    rw [metaFold_no_match m r hnm]
    exact ⟨rfl, rfl, rfl, rfl, rfl, rfl, rfl, rfl⟩
  | some p0 =>
    rw [metaFold_last_match m r p0 hfind]
    exact ⟨rfl, rfl, rfl, rfl, rfl, rfl, rfl, rfl⟩

/-- Claim C9 (confirmed): the `/api/upload-items` path upserts OrderItem
rows keyed `(orderId, 'tray', productCode)` — each ingested item's key is
present afterwards and rows with other keys are carried over untouched —
and on the Order table it rewrites only the aggregate quantity and
product-name label: every order keeps its key, totalPrice, orderDate,
status, freight, paymentType, commissionFee and serviceFee, and no order
row is created or deleted. -/
theorem C9_upload_items_frame :
    (∀ items s, List.Forall₂
      (fun o o' : RowKV OrderKey OrderData => o'.key = o.key
        ∧ o'.data.totalPrice = o.data.totalPrice
        ∧ o'.data.orderDate = o.data.orderDate
        ∧ o'.data.status = o.data.status
        ∧ o'.data.freight = o.data.freight
        ∧ o'.data.paymentType = o.data.paymentType
        ∧ o'.data.commissionFee = o.data.commissionFee
        ∧ o'.data.serviceFee = o.data.serviceFee)
      s.orders (uploadTrayItems items s).orders)
  ∧ (∀ items s it, it ∈ items →
      hasKey (uploadTrayItems items s).items
        (it.orderId, "tray", it.productCode) = true)
  ∧ (∀ items s r, r ∈ (uploadTrayItems items s).items →
      (∀ it ∈ items, (it.orderId, "tray", it.productCode) ≠ r.key) →
      r ∈ s.items) := by
  refine ⟨?_, ?_, ?_⟩
  · intro items s
    show List.Forall₂ _ s.orders (applyTrayOrderMeta (trayItemsByOrder items) s.orders)
    rw [applyTrayOrderMeta_eq_map]
    apply forall2_self_map
    intro r _
    obtain ⟨h1, h2, h3, h4, h5, h6, h7, h8⟩ := metaFold_frame (trayItemsByOrder items) r
    exact ⟨h1, h2, h3, h4, h5, h6, h7, h8⟩
  · intro items s it hit
    show hasKey (applyOps ((trayItemOps items).map (PatchOp.toUpsertOp itemPatchAlg))
      s.items) _ = true
    have hop : ({ k := (it.orderId, "tray", it.productCode)
                  c := { name := it.name
                         unitPrice := it.unitPrice
                         quantity := it.quantity
                         totalPrice := it.totalPrice
                         discount := none
                         productId := some ("tray_" ++ it.productCode) }
                  p := { name := some it.name
                         unitPrice := some it.unitPrice
                         quantity := some it.quantity
                         totalPrice := some it.totalPrice
                         discount := none
                         productId := some (some ("tray_" ++ it.productCode)) } } :
        PatchOp ItemKey ItemData ItemPatch) ∈ trayItemOps items :=
      List.mem_map_of_mem _ hit
    exact hasKey_applyOps_of_op _ s.items _ (List.mem_map_of_mem _ hop)
  · intro items s r hr hne
    refine mem_applyOps_untouched _ s.items r hr ?_
    intro uop huop
    rcases List.mem_map.mp huop with ⟨op, hop, rfl⟩
    rcases List.mem_map.mp hop with ⟨it, hit, rfl⟩
    exact hne it hit

/-- A concrete tray item line. -/
def itemC9 : StandardizedOrderItem :=
  { orderId := "B"
    source := "tray"
    productCode := "PC"
    name := "N"
    unitPrice := mkRat 7 1
    quantity := 2
    totalPrice := mkRat 14 1 }

/-- Witness for claim C9 at a concrete input. -/
theorem C9_witness :
    hasKey (uploadTrayItems [itemC9] (Store.mk [] [])).items
      ("B", "tray", "PC") = true :=
  C9_upload_items_frame.2.1 [itemC9] (Store.mk [] []) itemC9 (by decide)

/-! ## Claim C8: row rejection and the upload response -/

/-- Claim C8 (amended): on the generic upload path a sheet row whose
order id is missing, or whose order date is missing or invalid, is
standardized to `null` and silently dropped — the batch is not aborted,
the store and the response are exactly as if the row were absent, and
every accepted row is still persisted.  The handler's response is
`{ message, count }` whose `count` is the number of executed upserts (=
accepted rows); no rejected count is part of the response. -/
theorem C8_upload_skips_amended :
    (∀ native row, pick row ["Pedido", "pedido", "Order ID"] = none →
        standardizeDataTray native row = none)
  ∧ (∀ native row,
        parseDateAndTime native (pick row ["Data", "data"])
          (pick row ["Hora", "hora"]) = none →
        standardizeDataTray native row = none)
  ∧ (∀ native pre post bad s, standardizeDataTray native bad = none →
        uploadTray native (pre ++ bad :: post) s = uploadTray native (pre ++ post) s)
  ∧ (∀ native jsonData s row sale, row ∈ jsonData →
        standardizeDataTray native row = some sale →
        hasKey (uploadTray native jsonData s).1.orders
          (sale.orderId, sale.source) = true)
  ∧ (∀ native jsonData s, (uploadTray native jsonData s).2
        = ((jsonData.map (standardizeDataTray native)).reduceOption).length) := by
  refine ⟨?_, ?_, ?_, ?_, ?_⟩
  · intro native row h
    simp only [standardizeDataTray, h]
    cases hval : parseDateAndTime native (pick row ["Data", "data"])
        (pick row ["Hora", "hora"]) with
    | none => rfl
    | some d => simp
  · intro native row h
    simp only [standardizeDataTray, h]
  · intro native pre post bad s h
    have hsales : ((pre ++ bad :: post).map (standardizeDataTray native)).reduceOption
        = ((pre ++ post).map (standardizeDataTray native)).reduceOption := by
      rw [List.map_append, List.map_cons, List.map_append,
        List.reduceOption_append, List.reduceOption_append, h,
        List.reduceOption_cons_of_none]
    simp only [uploadTray, hsales]
  · intro native jsonData s row sale hrow hsale
    have hmem : sale ∈ (jsonData.map (standardizeDataTray native)).reduceOption :=
      List.reduceOption_mem_iff.mpr (hsale ▸ List.mem_map_of_mem _ hrow)
    have hop : ({ k := (sale.orderId, sale.source)
                  c := trayOrderData sale
                  p := { orderDate := some sale.orderDate
                         status := some sale.status
                         productName := some sale.productName
                         quantity := some sale.quantity
                         totalPrice := some sale.totalPrice
                         commissionFee := none
                         serviceFee := none
                         freight := sale.freight.map some
                         paymentType := sale.paymentType.map some } } :
        PatchOp OrderKey OrderData OrderPatch)
        ∈ trayOrderOps ((jsonData.map (standardizeDataTray native)).reduceOption) :=
      List.mem_map_of_mem _ hmem
    exact hasKey_applyOps_of_op _ s.orders _ (List.mem_map_of_mem _ hop)
  · intro native jsonData s
    simp only [uploadTray, trayOrderOps, List.length_map]

/-- A valid tray sheet row (order id `B1`, date `01/01/2026`). -/
def rowGoodC8 : RawRow :=
  [("Pedido", "B1"), ("Data", "01/01/2026"), ("Status pedido", "Pago")]

/-- A tray sheet row with no order id cell. -/
def rowBadC8 : RawRow := [("Data", "01/01/2026")]

/-- Claim C8, counterexample to the claim as stated: the handler's result
carries no rejected count.  Ingesting a file containing one valid and one
invalid row (missing order id) produces exactly the same store and the
same response as ingesting the file without the invalid row, although the
two files have different numbers of skipped rows — so no component of the
returned result reflects the skipped row, and the response shape is
`{ message, count }`, not `{ accepted, rejected }`. -/
theorem C8_counterexample :
    standardizeDataTray (fun _ => none) rowBadC8 = none
    ∧ uploadTray (fun _ => none) [rowGoodC8, rowBadC8] (Store.mk [] [])
        = uploadTray (fun _ => none) [rowGoodC8] (Store.mk [] []) := by
  constructor
  · decide
  · decide

/-- The standardized sale produced by `rowGoodC8`. -/
def saleC8 : StandardizedSale :=
  { orderId := "B1"
    orderDate := ⟨2026, 0, 1, 0, 0, 0⟩
    productName := "Pedido (Tray)"
    quantity := 1
    totalPrice := 0
    status := "Pago"
    source := "tray"
    freight := none
    paymentType := none }

/-- Witness for claim C8's amended theorem at a concrete input: the valid
row of the mixed file is persisted even though the file also contains a
rejected row. -/
theorem C8_witness :
    hasKey (uploadTray (fun _ => none) [rowGoodC8, rowBadC8] (Store.mk [] [])).1.orders
      ("B1", "tray") = true :=
  C8_upload_skips_amended.2.2.2.1 (fun _ => none) [rowGoodC8, rowBadC8]
    (Store.mk [] []) rowGoodC8 saleC8 (by decide) (by decide)

/-! ## Claim C2: the flexible parser reads slash dates as day/month

A valid `dd/mm/yyyy` string is the character list below for its numeric
field values; the calendar-validity hypotheses (`daysInMonth`) restrict
the statement to the regime where `new Date` performs no rollover, which
is where the `JSDate` embedding is exact. -/

def digitChar (n : ℕ) : Char := Char.ofNat (48 + n)

/-- The characters of a two-digit/four-digit `dd/mm/yyyy` date string. -/
def dateChars (dd mm yyyy : ℕ) : List Char :=
  [digitChar (dd / 10), digitChar (dd % 10), '/', digitChar (mm / 10),
   digitChar (mm % 10), '/', digitChar (yyyy / 1000), digitChar (yyyy / 100 % 10),
   digitChar (yyyy / 10 % 10), digitChar (yyyy % 10)]

def timeChars (hh mi : ℕ) : List Char :=
  [digitChar (hh / 10), digitChar (hh % 10), ':',
   digitChar (mi / 10), digitChar (mi % 10)]

def renderDdMm (dd mm yyyy : ℕ) : String := ⟨dateChars dd mm yyyy⟩

def renderDdMmHm (dd mm yyyy hh mi : ℕ) : String :=
  ⟨dateChars dd mm yyyy ++ ' ' :: timeChars hh mi⟩

def renderDdMmHms (dd mm yyyy hh mi ss : ℕ) : String :=
  ⟨dateChars dd mm yyyy ++ ' ' ::
    (timeChars hh mi ++ ':' :: [digitChar (ss / 10), digitChar (ss % 10)])⟩

def isLeapYear (y : ℕ) : Bool :=
  (y % 4 = 0 && y % 100 ≠ 0) || y % 400 = 0

def daysInMonth (m y : ℕ) : ℕ :=
  if m = 2 then (if isLeapYear y then 29 else 28)
  else if m = 4 ∨ m = 6 ∨ m = 9 ∨ m = 11 then 30
  else 31

theorem digitChar_isDigit (n : ℕ) (h : n < 10) :
    (digitChar n).isDigit = true := by
  interval_cases n <;> decide

theorem isJsWs_digitChar (n : ℕ) (h : n < 10) :
    isJsWs (digitChar n) = false := by
  interval_cases n <;> decide

theorem digitVal_digitChar (n : ℕ) (h : n < 10) :
    digitVal (digitChar n) = n := by
  interval_cases n <;> decide

theorem twoDigitVal_split (n : ℕ) (h : n < 100) :
    twoDigitVal (digitChar (n / 10)) (digitChar (n % 10)) = (n : ℤ) := by
  unfold twoDigitVal
  rw [digitVal_digitChar _ (by omega), digitVal_digitChar _ (by omega)]
  exact_mod_cast (show 10 * (n / 10) + n % 10 = n by omega)

theorem fourDigitVal_split (n : ℕ) (h : n < 10000) :
    ((1000 * digitVal (digitChar (n / 1000)) + 100 * digitVal (digitChar (n / 100 % 10))
      + 10 * digitVal (digitChar (n / 10 % 10)) + digitVal (digitChar (n % 10)) : ℕ) : ℤ)
      = (n : ℤ) := by
  rw [digitVal_digitChar _ (by omega), digitVal_digitChar _ (by omega),
    digitVal_digitChar _ (by omega), digitVal_digitChar _ (by omega)]
  exact_mod_cast
    (show 1000 * (n / 1000) + 100 * (n / 100 % 10) + 10 * (n / 10 % 10) + n % 10 = n by omega)

theorem jsTrim_eq_self (l : List Char) (h₁ : l.dropWhile isJsWs = l)
    (h₂ : l.reverse.dropWhile isJsWs = l.reverse) : jsTrim l = l := by
  unfold jsTrim
  rw [h₁, h₂, List.reverse_reverse]

/-- The matcher on a rendered date-only string. -/
theorem matchDdMmYyyy_dateChars (dd mm yyyy : ℕ) (hdd : dd < 100)
    (hmm : mm < 100) (hy : yyyy < 10000) :
    matchDdMmYyyy (dateChars dd mm yyyy)
      = some ((dd : ℤ), (mm : ℤ), (yyyy : ℤ), 0, 0, 0) := by
  have d1 := digitChar_isDigit (dd / 10) (by omega)
  have d2 := digitChar_isDigit (dd % 10) (by omega)
  have d3 := digitChar_isDigit (mm / 10) (by omega)
  have d4 := digitChar_isDigit (mm % 10) (by omega)
  have d5 := digitChar_isDigit (yyyy / 1000) (by omega)
  have d6 := digitChar_isDigit (yyyy / 100 % 10) (by omega)
  have d7 := digitChar_isDigit (yyyy / 10 % 10) (by omega)
  have d8 := digitChar_isDigit (yyyy % 10) (by omega)
  simp only [dateChars, matchDdMmYyyy, d1, d2, d3, d4, d5, d6, d7, d8,
    Bool.and_self, Bool.true_and, if_true]
  rw [twoDigitVal_split dd hdd, twoDigitVal_split mm hmm]
  rw [fourDigitVal_split yyyy hy]

/-- The matcher on a rendered date + `hh:mm` string. -/
theorem matchDdMmYyyy_dateTimeChars (dd mm yyyy hh mi : ℕ) (hdd : dd < 100)
    (hmm : mm < 100) (hy : yyyy < 10000) (hh2 : hh < 100) (hmi : mi < 100) :
    matchDdMmYyyy (dateChars dd mm yyyy ++ ' ' :: timeChars hh mi)
      = some ((dd : ℤ), (mm : ℤ), (yyyy : ℤ), (hh : ℤ), (mi : ℤ), 0) := by
  have d1 := digitChar_isDigit (dd / 10) (by omega)
  have d2 := digitChar_isDigit (dd % 10) (by omega)
  have d3 := digitChar_isDigit (mm / 10) (by omega)
  have d4 := digitChar_isDigit (mm % 10) (by omega)
  have d5 := digitChar_isDigit (yyyy / 1000) (by omega)
  have d6 := digitChar_isDigit (yyyy / 100 % 10) (by omega)
  have d7 := digitChar_isDigit (yyyy / 10 % 10) (by omega)
  have d8 := digitChar_isDigit (yyyy % 10) (by omega)
  have t1 := digitChar_isDigit (hh / 10) (by omega)
  have t2 := digitChar_isDigit (hh % 10) (by omega)
  have t3 := digitChar_isDigit (mi / 10) (by omega)
  have t4 := digitChar_isDigit (mi % 10) (by omega)
  have w1 := isJsWs_digitChar (hh / 10) (by omega)
  simp only [dateChars, timeChars, List.cons_append, List.nil_append,
    matchDdMmYyyy, d1, d2, d3, d4, d5, d6, d7, d8, Bool.and_self, Bool.true_and,
    if_true, show isJsWs ' ' = true by decide, List.dropWhile_cons, w1,
    Bool.false_eq_true, if_false, matchTimeTail, t1, t2, t3, t4]
  rw [twoDigitVal_split dd hdd, twoDigitVal_split mm hmm,
    twoDigitVal_split hh hh2, twoDigitVal_split mi hmi]
  rw [fourDigitVal_split yyyy hy]

/-- The matcher on a rendered date + `hh:mm:ss` string. -/
theorem matchDdMmYyyy_dateTimeSecChars (dd mm yyyy hh mi ss : ℕ) (hdd : dd < 100)
    (hmm : mm < 100) (hy : yyyy < 10000) (hh2 : hh < 100) (hmi : mi < 100)
    (hss : ss < 100) :
    matchDdMmYyyy (dateChars dd mm yyyy ++ ' ' ::
        (timeChars hh mi ++ ':' :: [digitChar (ss / 10), digitChar (ss % 10)]))
      = some ((dd : ℤ), (mm : ℤ), (yyyy : ℤ), (hh : ℤ), (mi : ℤ), (ss : ℤ)) := by
  have d1 := digitChar_isDigit (dd / 10) (by omega)
  have d2 := digitChar_isDigit (dd % 10) (by omega)
  have d3 := digitChar_isDigit (mm / 10) (by omega)
  have d4 := digitChar_isDigit (mm % 10) (by omega)
  have d5 := digitChar_isDigit (yyyy / 1000) (by omega)
  have d6 := digitChar_isDigit (yyyy / 100 % 10) (by omega)
  have d7 := digitChar_isDigit (yyyy / 10 % 10) (by omega)
  have d8 := digitChar_isDigit (yyyy % 10) (by omega)
  have t1 := digitChar_isDigit (hh / 10) (by omega)
  have t2 := digitChar_isDigit (hh % 10) (by omega)
  have t3 := digitChar_isDigit (mi / 10) (by omega)
  have t4 := digitChar_isDigit (mi % 10) (by omega)
  have t5 := digitChar_isDigit (ss / 10) (by omega)
  have t6 := digitChar_isDigit (ss % 10) (by omega)
  have w1 := isJsWs_digitChar (hh / 10) (by omega)
  simp only [dateChars, timeChars, List.cons_append, List.nil_append,
    matchDdMmYyyy, d1, d2, d3, d4, d5, d6, d7, d8, Bool.and_self, Bool.true_and,
    if_true, show isJsWs ' ' = true by decide, List.dropWhile_cons, w1,
    Bool.false_eq_true, if_false, matchTimeTail, t1, t2, t3, t4, t5, t6]
  rw [twoDigitVal_split dd hdd, twoDigitVal_split mm hmm,
    twoDigitVal_split hh hh2, twoDigitVal_split mi hmi, twoDigitVal_split ss hss]
  rw [fourDigitVal_split yyyy hy]

theorem daysInMonth_le (m y : ℕ) : daysInMonth m y ≤ 31 := by
  unfold daysInMonth
  split
  · split <;> omega
  · split <;> omega

theorem jsTrim_dateChars (dd mm yyyy : ℕ) (hdd : dd < 100) (hy : yyyy < 10000) :
    jsTrim (dateChars dd mm yyyy) = dateChars dd mm yyyy := by
  have w1 : isJsWs (digitChar (dd / 10)) = false := isJsWs_digitChar _ (by omega)
  have w2 : isJsWs (digitChar (yyyy % 10)) = false := isJsWs_digitChar _ (by omega)
  apply jsTrim_eq_self
  · simp [dateChars, List.dropWhile_cons, w1]
  · simp [dateChars, List.dropWhile_cons, w2]

theorem jsTrim_dateTimeChars (dd mm yyyy hh mi : ℕ) (hdd : dd < 100)
    (hmi : mi < 100) :
    jsTrim (dateChars dd mm yyyy ++ ' ' :: timeChars hh mi)
      = dateChars dd mm yyyy ++ ' ' :: timeChars hh mi := by
  have w1 : isJsWs (digitChar (dd / 10)) = false := isJsWs_digitChar _ (by omega)
  have w2 : isJsWs (digitChar (mi % 10)) = false := isJsWs_digitChar _ (by omega)
  apply jsTrim_eq_self
  · simp [dateChars, timeChars, List.dropWhile_cons, w1]
  · simp [dateChars, timeChars, List.dropWhile_cons, w2]

theorem jsTrim_dateTimeSecChars (dd mm yyyy hh mi ss : ℕ) (hdd : dd < 100)
    (hss : ss < 100) :
    jsTrim (dateChars dd mm yyyy ++ ' ' ::
        (timeChars hh mi ++ ':' :: [digitChar (ss / 10), digitChar (ss % 10)]))
      = dateChars dd mm yyyy ++ ' ' ::
        (timeChars hh mi ++ ':' :: [digitChar (ss / 10), digitChar (ss % 10)]) := by
  have w1 : isJsWs (digitChar (dd / 10)) = false := isJsWs_digitChar _ (by omega)
  have w2 : isJsWs (digitChar (ss % 10)) = false := isJsWs_digitChar _ (by omega)
  apply jsTrim_eq_self
  · simp [dateChars, timeChars, List.dropWhile_cons, w1]
  · simp [dateChars, timeChars, List.dropWhile_cons, w2]

/-- Claim C2 (confirmed): for every valid `dd/mm/yyyy` string, optionally
followed by ` hh:mm` or ` hh:mm:ss`, and for every engine-native fallback
behavior, `parseDateFlexible` returns the date whose day is the first
slash field and whose month is the second — never the `mm/dd` reading and
never a failure.  In particular `"13/01/2026"` parses to 13 January 2026
and `"03/04/2026"` parses to 3 April 2026, not 4 March. -/
theorem C2_parseDateFlexible_day_month :
    (∀ native dd mm yyyy, 1 ≤ dd → dd ≤ daysInMonth mm yyyy → 1 ≤ mm →
      mm ≤ 12 → yyyy ≤ 9999 →
      parseDateFlexible native (renderDdMm dd mm yyyy)
        = some ⟨(yyyy : ℤ), (mm : ℤ) - 1, (dd : ℤ), 0, 0, 0⟩)
  ∧ (∀ native dd mm yyyy hh mi, 1 ≤ dd → dd ≤ daysInMonth mm yyyy → 1 ≤ mm →
      mm ≤ 12 → yyyy ≤ 9999 → hh ≤ 23 → mi ≤ 59 →
      parseDateFlexible native (renderDdMmHm dd mm yyyy hh mi)
        = some ⟨(yyyy : ℤ), (mm : ℤ) - 1, (dd : ℤ), (hh : ℤ), (mi : ℤ), 0⟩)
  ∧ (∀ native dd mm yyyy hh mi ss, 1 ≤ dd → dd ≤ daysInMonth mm yyyy → 1 ≤ mm →
      mm ≤ 12 → yyyy ≤ 9999 → hh ≤ 23 → mi ≤ 59 → ss ≤ 59 →
      parseDateFlexible native (renderDdMmHms dd mm yyyy hh mi ss)
        = some ⟨(yyyy : ℤ), (mm : ℤ) - 1, (dd : ℤ), (hh : ℤ), (mi : ℤ), (ss : ℤ)⟩)
  ∧ (∀ native, parseDateFlexible native "13/01/2026"
        = some ⟨2026, 0, 13, 0, 0, 0⟩)
  ∧ (∀ native, parseDateFlexible native "03/04/2026"
        = some ⟨2026, 3, 3, 0, 0, 0⟩) := by
  refine ⟨?_, ?_, ?_, ?_, ?_⟩
  · intro native dd mm yyyy h1 h2 h3 h4 h5
    have hdd : dd < 100 := by have := daysInMonth_le mm yyyy; omega
    have hmm : mm < 100 := by omega
    have hy : yyyy < 10000 := by omega
    show parseDateFlexible native ⟨dateChars dd mm yyyy⟩ = _
    unfold parseDateFlexible
    rw [show (⟨dateChars dd mm yyyy⟩ : String).data = dateChars dd mm yyyy from rfl]
    rw [jsTrim_dateChars dd mm yyyy hdd hy]
    rw [if_neg (by simp [dateChars])]
    rw [matchDdMmYyyy_dateChars dd mm yyyy hdd hmm hy]
  · intro native dd mm yyyy hh mi h1 h2 h3 h4 h5 h6 h7
    have hdd : dd < 100 := by have := daysInMonth_le mm yyyy; omega
    have hmm : mm < 100 := by omega
    have hy : yyyy < 10000 := by omega
    show parseDateFlexible native ⟨dateChars dd mm yyyy ++ ' ' :: timeChars hh mi⟩ = _
    unfold parseDateFlexible
    rw [show (⟨dateChars dd mm yyyy ++ ' ' :: timeChars hh mi⟩ : String).data
      = dateChars dd mm yyyy ++ ' ' :: timeChars hh mi from rfl]
    rw [jsTrim_dateTimeChars dd mm yyyy hh mi hdd (by omega)]
    rw [if_neg (by simp [dateChars])]
    rw [matchDdMmYyyy_dateTimeChars dd mm yyyy hh mi hdd hmm hy (by omega) (by omega)]
  · intro native dd mm yyyy hh mi ss h1 h2 h3 h4 h5 h6 h7 h8
    have hdd : dd < 100 := by have := daysInMonth_le mm yyyy; omega
    have hmm : mm < 100 := by omega
    have hy : yyyy < 10000 := by omega
    show parseDateFlexible native ⟨dateChars dd mm yyyy ++ ' ' ::
      (timeChars hh mi ++ ':' :: [digitChar (ss / 10), digitChar (ss % 10)])⟩ = _
    unfold parseDateFlexible
    rw [show (⟨dateChars dd mm yyyy ++ ' ' ::
      (timeChars hh mi ++ ':' :: [digitChar (ss / 10), digitChar (ss % 10)])⟩ :
        String).data = dateChars dd mm yyyy ++ ' ' ::
      (timeChars hh mi ++ ':' :: [digitChar (ss / 10), digitChar (ss % 10)]) from rfl]
    rw [jsTrim_dateTimeSecChars dd mm yyyy hh mi ss hdd (by omega)]
    rw [if_neg (by simp [dateChars])]
    rw [matchDdMmYyyy_dateTimeSecChars dd mm yyyy hh mi ss hdd hmm hy
      (by omega) (by omega) (by omega)]
  · intro native
    simp +decide [parseDateFlexible, jsTrim, matchDdMmYyyy, twoDigitVal,
      digitVal, isJsWs, List.dropWhile]
  · intro native
    simp +decide [parseDateFlexible, jsTrim, matchDdMmYyyy, twoDigitVal,
      digitVal, isJsWs, List.dropWhile]

/-- Witness for claim C2 at the concrete input `13/01/2026`. -/
theorem C2_witness :
    parseDateFlexible (fun _ => none) (renderDdMm 13 1 2026)
      = some ⟨2026, 0, 13, 0, 0, 0⟩ := by
  have h := C2_parseDateFlexible_day_month.1 (fun _ => none) 13 1 2026
    (by decide) (by decide) (by decide) (by decide) (by decide)
  simpa using h

/-! ## Claim C3: `parseBrNumber` separator semantics

Helper lemmas about digit strings and the string surgery the parser
performs, leading to the separator-placement theorem. -/

def allDigits (l : List Char) : Prop := ∀ c ∈ l, c.isDigit = true

theorem char_ne_of_isDigit {c : Char} (d : Char) (h : c.isDigit = true)
    (hd : d.isDigit = false) : c ≠ d := by
  intro hc
  rw [hc] at h
  rw [h] at hd
  cases hd

theorem isJsWs_of_isDigit {c : Char} (h : c.isDigit = true) :
    isJsWs c = false := by
  unfold isJsWs
  rw [decide_eq_false (char_ne_of_isDigit ' ' h (by decide)),
    decide_eq_false (char_ne_of_isDigit '\t' h (by decide)),
    decide_eq_false (char_ne_of_isDigit '\n' h (by decide)),
    decide_eq_false (char_ne_of_isDigit '\r' h (by decide)),
    decide_eq_false (char_ne_of_isDigit (Char.ofNat 11) h (by decide)),
    decide_eq_false (char_ne_of_isDigit (Char.ofNat 12) h (by decide)),
    decide_eq_false (char_ne_of_isDigit (Char.ofNat 160) h (by decide))]
  rfl

theorem jsTrim_of_no_ws (l : List Char) (h : ∀ c ∈ l, isJsWs c = false) :
    jsTrim l = l := by
  apply jsTrim_eq_self
  · cases l with
    | nil => rfl
    | cons c t =>
      rw [List.dropWhile_cons, if_neg]
      rw [h c (List.mem_cons_self _ _)]
      simp
  · cases hl : l.reverse with
    | nil => rfl
    | cons c t =>
      rw [List.dropWhile_cons, if_neg]
      have hc : c ∈ l := by
        rw [← List.mem_reverse, hl]
        exact List.mem_cons_self _ _
      rw [h c hc]
      simp

theorem stripRS_cons_ne (c : Char) (rest : List Char) (hc : c ≠ 'R') :
    stripRS (c :: rest) = c :: stripRS rest := by
  rw [stripRS.eq_def]
  split
  · next heq => injection heq with h1 _; exact absurd h1 hc
  · next heq => injection heq with h1 _; exact absurd h1 hc
  · next c' rest' heq =>
    injection heq with h1 h2
    subst h1; subst h2
    rfl
  · next heq => cases heq

theorem stripRS_id (l : List Char) (h : ∀ c ∈ l, c ≠ 'R') : stripRS l = l := by
  induction l with
  | nil => rfl
  | cons c rest ih =>
    rw [stripRS_cons_ne c rest (h c (List.mem_cons_self _ _)),
      ih (fun x hx => h x (List.mem_cons_of_mem _ hx))]

theorem stripBRL_cons_ne (c : Char) (rest : List Char) (hc : c ≠ 'B') :
    stripBRL (c :: rest) = c :: stripBRL rest := by
  rw [stripBRL.eq_def]
  split
  · next heq => injection heq with h1 _; exact absurd h1 hc
  · next heq => injection heq with h1 _; exact absurd h1 hc
  · next c' rest' heq =>
    injection heq with h1 h2
    subst h1; subst h2
    rfl
  · next heq => cases heq

theorem stripBRL_id (l : List Char) (h : ∀ c ∈ l, c ≠ 'B') : stripBRL l = l := by
  induction l with
  | nil => rfl
  | cons c rest ih =>
    rw [stripBRL_cons_ne c rest (h c (List.mem_cons_self _ _)),
      ih (fun x hx => h x (List.mem_cons_of_mem _ hx))]

theorem lastIndexOfAux_not_mem (c : Char) (l : List Char) (i best : ℤ)
    (h : c ∉ l) : lastIndexOfAux c l i best = best := by
  induction l generalizing i best with
  | nil => rfl
  | cons x xs ih =>
    show lastIndexOfAux c xs (i + 1) (if x = c then i else best) = best
    rw [if_neg (fun hx => h (by rw [← hx]; exact List.mem_cons_self _ _))]
    exact ih _ _ (fun hx => h (List.mem_cons_of_mem _ hx))

theorem lastIndexOfAux_append (c : Char) (xs ys : List Char) (i best : ℤ) :
    lastIndexOfAux c (xs ++ ys) i best
      = lastIndexOfAux c ys (i + xs.length) (lastIndexOfAux c xs i best) := by
  induction xs generalizing i best with
  | nil => simp [lastIndexOfAux]
  | cons x xs ih =>
    show lastIndexOfAux c (xs ++ ys) (i + 1) _ = _
    rw [ih]
    congr 1
    simp only [List.length_cons]
    push_cast
    ring

/-- `takeWhile` over digits stops exactly at the separator. -/
theorem takeWhile_digits (d : List Char) (x : Char) (f : List Char)
    (hd : allDigits d) (hx : x.isDigit = false) :
    (d ++ x :: f).takeWhile Char.isDigit = d := by
  induction d with
  | nil => simp [List.takeWhile_cons, hx]
  | cons c cs ih =>
    rw [List.cons_append, List.takeWhile_cons,
      if_pos (hd c (List.mem_cons_self _ _))]
    rw [ih (fun y hy => hd y (List.mem_cons_of_mem _ hy))]

theorem dropWhile_digits (d : List Char) (x : Char) (f : List Char)
    (hd : allDigits d) (hx : x.isDigit = false) :
    (d ++ x :: f).dropWhile Char.isDigit = x :: f := by
  induction d with
  | nil => simp [List.dropWhile_cons, hx]
  | cons c cs ih =>
    rw [List.cons_append, List.dropWhile_cons,
      if_pos (hd c (List.mem_cons_self _ _))]
    exact ih (fun y hy => hd y (List.mem_cons_of_mem _ hy))

theorem takeWhile_digits_all (d : List Char) (hd : allDigits d) :
    d.takeWhile Char.isDigit = d := by
  induction d with
  | nil => rfl
  | cons c cs ih =>
    rw [List.takeWhile_cons, if_pos (hd c (List.mem_cons_self _ _)),
      ih (fun y hy => hd y (List.mem_cons_of_mem _ hy))]

theorem dropWhile_digits_all (d : List Char) (hd : allDigits d) :
    d.dropWhile Char.isDigit = [] := by
  induction d with
  | nil => rfl
  | cons c cs ih =>
    rw [List.dropWhile_cons, if_pos (hd c (List.mem_cons_self _ _))]
    exact ih (fun y hy => hd y (List.mem_cons_of_mem _ hy))

theorem filter_ne_of_digits (d : List Char) (x : Char) (hd : allDigits d)
    (hx : x.isDigit = false) : d.filter (· ≠ x) = d := by
  rw [List.filter_eq_self]
  intro c hc
  simp [char_ne_of_isDigit x (hd c hc) hx]

theorem replaceFirst_after_digits (xs ys : List Char) (hxs : allDigits xs) :
    replaceFirstChar (xs ++ ',' :: ys) ',' '.' = xs ++ '.' :: ys := by
  induction xs with
  | nil => simp [replaceFirstChar]
  | cons c cs ih =>
    rw [List.cons_append, replaceFirstChar,
      if_neg (char_ne_of_isDigit ',' (hxs c (List.mem_cons_self _ _)) (by decide)),
      ih (fun y hy => hxs y (List.mem_cons_of_mem _ hy))]
    rfl

/-- `Number` on a digit string with one decimal point. -/
theorem jsNumber_digits_dot (d f : List Char) (hd : allDigits d)
    (hf : allDigits f) (hne : d ≠ []) :
    jsNumber (d ++ '.' :: f) = some (digitsValQ d + fracVal f) := by
  have hnws : ∀ c ∈ d ++ '.' :: f, isJsWs c = false := by
    intro c hc
    rcases List.mem_append.mp hc with h | h
    · exact isJsWs_of_isDigit (hd c h)
    · rcases List.mem_cons.mp h with h | h
      · subst h; decide
      · exact isJsWs_of_isDigit (hf c h)
  obtain ⟨c0, d', rfl⟩ : ∃ c0 d', d = c0 :: d' := by
    cases d with
    | nil => exact absurd rfl hne
    | cons c0 d' => exact ⟨c0, d', rfl⟩
  have hc0 : c0.isDigit = true := hd c0 (List.mem_cons_self _ _)
  unfold jsNumber
  rw [jsTrim_of_no_ws _ hnws]
  rw [List.cons_append]
  show (if c0 = '+' then _ else if c0 = '-' then _ else
    jsNumberUnsigned (c0 :: (d' ++ '.' :: f))) = _
  rw [if_neg (char_ne_of_isDigit '+' hc0 (by decide)),
    if_neg (char_ne_of_isDigit '-' hc0 (by decide))]
  rw [← List.cons_append]
  unfold jsNumberUnsigned
  rw [List.span_eq_take_drop]
  rw [takeWhile_digits _ '.' f hd (by decide), dropWhile_digits _ '.' f hd (by decide)]
  show (if '.' = '.' then _ else _) = _
  rw [if_pos rfl]
  rw [List.span_eq_take_drop, takeWhile_digits_all f hf,
    dropWhile_digits_all f hf]
  show (if c0 :: d' = [] ∧ f = [] then none
    else jsNumberExpTail (digitsValQ (c0 :: d') + fracVal f) []) = _
  rw [if_neg (fun hand => hne hand.1)]
  rfl

/-- The last comma of `a.b,c` (digit groups) is to the right of the last
dot, and symmetrically. -/
theorem lastIndexOf_groups_comma (a b c : List Char) (hA : allDigits a)
    (hB : allDigits b) (hC : allDigits c) :
    lastIndexOf (a ++ '.' :: (b ++ ',' :: c)) ','
      = (a.length : ℤ) + 1 + b.length
    ∧ lastIndexOf (a ++ '.' :: (b ++ ',' :: c)) '.' = (a.length : ℤ) := by
  have hancm : ',' ∉ a := fun h => char_ne_of_isDigit ',' (hA _ h) (by decide) rfl
  have hbncm : ',' ∉ b := fun h => char_ne_of_isDigit ',' (hB _ h) (by decide) rfl
  have hcncm : ',' ∉ c := fun h => char_ne_of_isDigit ',' (hC _ h) (by decide) rfl
  have handt : '.' ∉ a := fun h => char_ne_of_isDigit '.' (hA _ h) (by decide) rfl
  have hbndt : '.' ∉ b := fun h => char_ne_of_isDigit '.' (hB _ h) (by decide) rfl
  have hcndt : '.' ∉ c := fun h => char_ne_of_isDigit '.' (hC _ h) (by decide) rfl
  constructor
  · unfold lastIndexOf
    rw [lastIndexOfAux_append, lastIndexOfAux_not_mem _ _ _ _ hancm]
    show lastIndexOfAux ',' (b ++ ',' :: c) (0 + ↑a.length + 1)
      (if ('.' : Char) = ',' then _ else -1) = _
    rw [if_neg (by decide), lastIndexOfAux_append,
      lastIndexOfAux_not_mem _ _ _ _ hbncm]
    show lastIndexOfAux ',' c _ (if (',' : Char) = ',' then _ else _) = _
    rw [if_pos rfl, lastIndexOfAux_not_mem _ _ _ _ hcncm]
    ring
  · unfold lastIndexOf
    rw [lastIndexOfAux_append, lastIndexOfAux_not_mem _ _ _ _ handt]
    show lastIndexOfAux '.' (b ++ ',' :: c) (0 + ↑a.length + 1)
      (if ('.' : Char) = '.' then 0 + (a.length : ℤ) else -1) = _
    rw [if_pos rfl, lastIndexOfAux_append,
      lastIndexOfAux_not_mem _ _ _ _ hbndt]
    show lastIndexOfAux '.' c _ (if (',' : Char) = '.' then _ else 0 + (a.length : ℤ)) = _
    rw [if_neg (by decide), lastIndexOfAux_not_mem _ _ _ _ hcndt]
    ring

/-- The last dot of `a,b.c` (digit groups) is to the right of the last
comma, and symmetrically. -/
theorem lastIndexOf_groups_dot (a b c : List Char) (hA : allDigits a)
    (hB : allDigits b) (hC : allDigits c) :
    lastIndexOf (a ++ ',' :: (b ++ '.' :: c)) '.'
      = (a.length : ℤ) + 1 + b.length
    ∧ lastIndexOf (a ++ ',' :: (b ++ '.' :: c)) ',' = (a.length : ℤ) := by
  have hancm : ',' ∉ a := fun h => char_ne_of_isDigit ',' (hA _ h) (by decide) rfl
  have hbncm : ',' ∉ b := fun h => char_ne_of_isDigit ',' (hB _ h) (by decide) rfl
  have hcncm : ',' ∉ c := fun h => char_ne_of_isDigit ',' (hC _ h) (by decide) rfl
  have handt : '.' ∉ a := fun h => char_ne_of_isDigit '.' (hA _ h) (by decide) rfl
  have hbndt : '.' ∉ b := fun h => char_ne_of_isDigit '.' (hB _ h) (by decide) rfl
  have hcndt : '.' ∉ c := fun h => char_ne_of_isDigit '.' (hC _ h) (by decide) rfl
  constructor
  · unfold lastIndexOf
    rw [lastIndexOfAux_append, lastIndexOfAux_not_mem _ _ _ _ handt]
    show lastIndexOfAux '.' (b ++ '.' :: c) (0 + ↑a.length + 1)
      (if (',' : Char) = '.' then _ else -1) = _
    rw [if_neg (by decide), lastIndexOfAux_append,
      lastIndexOfAux_not_mem _ _ _ _ hbndt]
    show lastIndexOfAux '.' c _ (if ('.' : Char) = '.' then _ else _) = _
    rw [if_pos rfl, lastIndexOfAux_not_mem _ _ _ _ hcndt]
    ring
  · unfold lastIndexOf
    rw [lastIndexOfAux_append, lastIndexOfAux_not_mem _ _ _ _ hancm]
    show lastIndexOfAux ',' (b ++ '.' :: c) (0 + ↑a.length + 1)
      (if (',' : Char) = ',' then 0 + (a.length : ℤ) else -1) = _
    rw [if_pos rfl, lastIndexOfAux_append,
      lastIndexOfAux_not_mem _ _ _ _ hbncm]
    show lastIndexOfAux ',' c _ (if ('.' : Char) = ',' then _ else 0 + (a.length : ℤ)) = _
    rw [if_neg (by decide), lastIndexOfAux_not_mem _ _ _ _ hcncm]
    ring

/-- Characters admitted in the cleaned numeric strings: digits and the two
separators. -/
def sepDigits (l : List Char) : Prop :=
  ∀ c ∈ l, c.isDigit = true ∨ c = '.' ∨ c = ','

theorem allDigits_append {a b : List Char} (hA : allDigits a)
    (hB : allDigits b) : allDigits (a ++ b) := by
  intro x hx
  rcases List.mem_append.mp hx with h | h
  · exact hA x h
  · exact hB x h

/-- Trimming and currency stripping leave a digits-and-separators string
unchanged. -/
theorem sepDigits_clean (l : List Char) (h : sepDigits l) :
    stripBRL (stripRS (jsTrim l)) = l := by
  have hws : ∀ c ∈ l, isJsWs c = false := by
    intro c hc
    rcases h c hc with hd | rfl | rfl
    · exact isJsWs_of_isDigit hd
    · decide
    · decide
  have hR : ∀ c ∈ l, c ≠ 'R' := by
    intro c hc
    rcases h c hc with hd | rfl | rfl
    · exact char_ne_of_isDigit 'R' hd (by decide)
    · decide
    · decide
  have hB : ∀ c ∈ l, c ≠ 'B' := by
    intro c hc
    rcases h c hc with hd | rfl | rfl
    · exact char_ne_of_isDigit 'B' hd (by decide)
    · decide
    · decide
  rw [jsTrim_of_no_ws l hws, stripRS_id l hR, stripBRL_id l hB]

theorem containsChar_of_mem {l : List Char} {c : Char} (h : c ∈ l) :
    containsChar l c = true := by
  simp only [containsChar, List.any_eq_true, decide_eq_true_eq]
  exact ⟨c, h, rfl⟩

theorem containsChar_eq_false {l : List Char} {c : Char} (h : c ∉ l) :
    containsChar l c = false := by
  simp only [containsChar, List.any_eq_false, decide_eq_true_eq]
  intro x hx hxc
  exact h (hxc ▸ hx)

/-- Removing all occurrences of the separator `x` from `a x (b y c)`
(digit groups) keeps everything else. -/
theorem removeAllChar_group (a b c : List Char) (x y : Char)
    (hA : allDigits a) (hB : allDigits b) (hC : allDigits c)
    (hx : x.isDigit = false) (hxy : y ≠ x) :
    removeAllChar (a ++ x :: (b ++ y :: c)) x = (a ++ b) ++ y :: c := by
  unfold removeAllChar
  rw [List.filter_append, filter_ne_of_digits a x hA hx,
    List.filter_cons_of_neg (by simp),
    List.filter_append, filter_ne_of_digits b x hB hx,
    List.filter_cons_of_pos (by simp [hxy]),
    filter_ne_of_digits c x hC hx, List.append_assoc]

/-- `parseBrNumber` on `a.b,c`: the comma is the decimal separator, the
dot is removed as a thousands separator. -/
theorem parseBrNumberL_comma_decimal (a b c : List Char) (hA : allDigits a)
    (hB : allDigits b) (hC : allDigits c) (hne : a ++ b ≠ []) :
    parseBrNumberL (a ++ '.' :: (b ++ ',' :: c))
      = digitsValQ (a ++ b) + fracVal c := by
  have hsep : sepDigits (a ++ '.' :: (b ++ ',' :: c)) := by
    intro x hx
    rcases List.mem_append.mp hx with h | h
    · exact Or.inl (hA x h)
    · rcases List.mem_cons.mp h with rfl | h
      · exact Or.inr (Or.inl rfl)
      · rcases List.mem_append.mp h with h | h
        · exact Or.inl (hB x h)
        · rcases List.mem_cons.mp h with rfl | h
          · exact Or.inr (Or.inr rfl)
          · exact Or.inl (hC x h)
  simp only [parseBrNumberL]
  rw [sepDigits_clean _ hsep]
  rw [if_neg (by simp)]
  rw [containsChar_of_mem (show (',' : Char) ∈ _ by simp),
    containsChar_of_mem (show ('.' : Char) ∈ _ by simp)]
  simp only [Bool.and_self]
  rw [if_pos (by trivial)]
  rw [(lastIndexOf_groups_comma a b c hA hB hC).1,
    (lastIndexOf_groups_comma a b c hA hB hC).2]
  rw [if_pos (show (a.length : ℤ) + 1 + b.length > (a.length : ℤ) by omega)]
  rw [removeAllChar_group a b c '.' ',' hA hB hC (by decide) (by decide)]
  rw [replaceFirst_after_digits (a ++ b) c (allDigits_append hA hB)]
  rw [jsNumber_digits_dot (a ++ b) c (allDigits_append hA hB) hC hne]

/-- `parseBrNumber` on `a,b.c`: the dot is the decimal separator, the
comma is removed as a thousands separator. -/
theorem parseBrNumberL_dot_decimal (a b c : List Char) (hA : allDigits a)
    (hB : allDigits b) (hC : allDigits c) (hne : a ++ b ≠ []) :
    parseBrNumberL (a ++ ',' :: (b ++ '.' :: c))
      = digitsValQ (a ++ b) + fracVal c := by
  have hsep : sepDigits (a ++ ',' :: (b ++ '.' :: c)) := by
    intro x hx
    rcases List.mem_append.mp hx with h | h
    · exact Or.inl (hA x h)
    · rcases List.mem_cons.mp h with rfl | h
      · exact Or.inr (Or.inr rfl)
      · rcases List.mem_append.mp h with h | h
        · exact Or.inl (hB x h)
        · rcases List.mem_cons.mp h with rfl | h
          · exact Or.inr (Or.inl rfl)
          · exact Or.inl (hC x h)
  simp only [parseBrNumberL]
  rw [sepDigits_clean _ hsep]
  rw [if_neg (by simp)]
  rw [containsChar_of_mem (show (',' : Char) ∈ _ by simp),
    containsChar_of_mem (show ('.' : Char) ∈ _ by simp)]
  simp only [Bool.and_self]
  rw [if_pos (by trivial)]
  rw [(lastIndexOf_groups_dot a b c hA hB hC).1,
    (lastIndexOf_groups_dot a b c hA hB hC).2]
  rw [if_neg (show ¬ ((a.length : ℤ) > (a.length : ℤ) + 1 + b.length) by omega)]
  rw [removeAllChar_group a b c ',' '.' hA hB hC (by decide) (by decide)]
  rw [jsNumber_digits_dot (a ++ b) c (allDigits_append hA hB) hC hne]

/-- `parseBrNumber` on `a,c` with no dot: the comma is the decimal
separator. -/
theorem parseBrNumberL_comma_only (a c : List Char) (hA : allDigits a)
    (hC : allDigits c) (hne : a ≠ []) :
    parseBrNumberL (a ++ ',' :: c) = digitsValQ a + fracVal c := by
  have hsep : sepDigits (a ++ ',' :: c) := by
    intro x hx
    rcases List.mem_append.mp hx with h | h
    · exact Or.inl (hA x h)
    · rcases List.mem_cons.mp h with rfl | h
      · exact Or.inr (Or.inr rfl)
      · exact Or.inl (hC x h)
  have hndot : ('.' : Char) ∉ a ++ ',' :: c := by
    intro h
    rcases List.mem_append.mp h with h | h
    · exact char_ne_of_isDigit '.' (hA _ h) (by decide) rfl
    · rcases List.mem_cons.mp h with h | h
      · cases h
      · exact char_ne_of_isDigit '.' (hC _ h) (by decide) rfl
  simp only [parseBrNumberL]
  rw [sepDigits_clean _ hsep]
  rw [if_neg (by simp)]
  rw [containsChar_of_mem (show (',' : Char) ∈ _ by simp),
    containsChar_eq_false hndot]
  simp only [Bool.and_false]
  rw [if_neg (by simp)]
  rw [if_pos (by trivial)]
  rw [replaceFirst_after_digits a c hA]
  rw [jsNumber_digits_dot a c hA hC hne]

/-- Claim C3 (confirmed): the locale number parser strips currency
markers; when both a comma and a dot are present the rightmost of the two
is the decimal separator and the other is removed as a thousands
separator; a lone comma is the decimal separator; empty and non-numeric
inputs yield `0` (the embedding is a total function, so no exception is
possible).  In particular `parseBrNumber "1.234,56" = 1234.56`,
`parseBrNumber "1,234.56" = 1234.56`, `parseBrNumber "" = 0`, and
`parseBrNumber "R$ 50,00" = 50`. -/
theorem C3_parseBrNumber_separators :
    (∀ a b c : List Char, allDigits a → allDigits b → allDigits c →
      a ++ b ≠ [] →
      parseBrNumberL (a ++ '.' :: (b ++ ',' :: c))
        = digitsValQ (a ++ b) + fracVal c)
  ∧ (∀ a b c : List Char, allDigits a → allDigits b → allDigits c →
      a ++ b ≠ [] →
      parseBrNumberL (a ++ ',' :: (b ++ '.' :: c))
        = digitsValQ (a ++ b) + fracVal c)
  ∧ (∀ a c : List Char, allDigits a → allDigits c → a ≠ [] →
      parseBrNumberL (a ++ ',' :: c) = digitsValQ a + fracVal c)
  ∧ parseBrNumber "1.234,56" = mkRat 123456 100
  ∧ parseBrNumber "1,234.56" = mkRat 123456 100
  ∧ parseBrNumber "" = 0
  ∧ parseBrNumber "abc" = 0
  ∧ parseBrNumber "R$ 50,00" = mkRat 50 1 := by
  refine ⟨parseBrNumberL_comma_decimal, parseBrNumberL_dot_decimal,
    parseBrNumberL_comma_only, ?_, ?_, ?_, ?_, ?_⟩
  · simp +decide [parseBrNumber, parseBrNumberL, jsTrim, stripRS, stripBRL,
      isJsWs, containsChar, lastIndexOf, lastIndexOfAux, replaceFirstChar,
      removeAllChar, jsNumber, jsNumberUnsigned, jsNumberExpTail, digitsValQ,
      digitsVal, digitVal, fracVal, List.span, List.span.loop,
      Rat.mkRat_eq_div]
    norm_num
  · simp +decide [parseBrNumber, parseBrNumberL, jsTrim, stripRS, stripBRL,
      isJsWs, containsChar, lastIndexOf, lastIndexOfAux, replaceFirstChar,
      removeAllChar, jsNumber, jsNumberUnsigned, jsNumberExpTail, digitsValQ,
      digitsVal, digitVal, fracVal, List.span, List.span.loop,
      Rat.mkRat_eq_div]
    norm_num
  · decide
  · decide
  · simp +decide [parseBrNumber, parseBrNumberL, jsTrim, stripRS, stripBRL,
      isJsWs, containsChar, lastIndexOf, lastIndexOfAux, replaceFirstChar,
      removeAllChar, jsNumber, jsNumberUnsigned, jsNumberExpTail, digitsValQ,
      digitsVal, digitVal, fracVal, List.span, List.span.loop,
      Rat.mkRat_eq_div]

/-! ## Stock: `isOrderValidForStock` and `/api/stock-current`
(src/index.ts lines 2053–2153)

The database rows feeding the handler.  Presentation-only passthrough
fields of the report rows (`code`, `costPrice`, `productNames`) are not
modelled; the final `localeCompare` name sort of the handler only
permutes the result list, so the embedding keeps construction order and
the claims are stated per entry. -/

/-- An `OrderItem` as read by the stock handler. -/
structure StockItem where
  productId : Option ℕ
  quantity : ℤ
deriving DecidableEq

/-- An `Order` (with included items) as read by the stock handler. -/
structure StockOrder where
  orderDate : JSDate
  status : String
  items : List StockItem
deriving DecidableEq

/-- A `Product` row (fields used by the claims). -/
structure ProductRow where
  id : ℕ
  name : String
deriving DecidableEq

/-- A `ProductGroup` row. -/
structure ProductGroupRow where
  id : ℕ
  name : String
deriving DecidableEq

/-- A `ProductGroupItem` membership row (unique on `productId`). -/
structure ProductGroupItemRow where
  productGroupId : ℕ
  productId : ℕ
deriving DecidableEq

/-- A `ProductGroupStock` opening-quantity row (unique on
`productGroupId`). -/
structure ProductGroupStockRow where
  productGroupId : ℕ
  quantity : ℤ
deriving DecidableEq

/-- A `ProductStock` opening-quantity row (unique on `productId`). -/
structure ProductStockRow where
  productId : ℕ
  quantity : ℤ
deriving DecidableEq

/-- The slice of the database the stock handler reads: the latest
`InventoryConfig.stockStartDate` (if any), the orders, and the
group/stock tables (each list in the query's `orderBy` order). -/
structure StockDB where
  config : Option JSDate
  orders : List StockOrder
  groups : List ProductGroupRow
  groupItems : List ProductGroupItemRow
  groupStock : List ProductGroupStockRow
  productStock : List ProductStockRow
  products : List ProductRow
deriving DecidableEq

/-- A row of the stock report (the claim-relevant fields). -/
structure StockEntry where
  type : String
  productGroupId : Option ℕ
  productId : Option ℕ
  name : Option String
  opening : ℤ
  sold : ℤ
  current : ℤ
deriving DecidableEq

/-- `isOrderValidForStock` (lines 2053–2058): lower-cased status must not
contain `cancelado`, `não pago`, or `nao pago`. -/
def isOrderValidForStock (status : String) : Bool :=
  let st := jsToLower status.data
  if containsSub st "cancelado".data then false
  else if containsSub st "não pago".data || containsSub st "nao pago".data
    then false
  else true

/-- Orders on/after the configured stock-start date (`orderDate: { gte }`);
no config row means no orders are considered. -/
def ordersSince (db : StockDB) : List StockOrder :=
  match db.config with
  | some d => db.orders.filter (fun o => dateLeB d o.orderDate)
  | none => []

/-- Inner loop of the `soldByProduct` accumulation: items without a
`productId` are skipped, the rest bump the map entry
(`(get(pid) || 0) + (quantity || 0)`; the `Map` is modelled by its lookup
function). -/
def soldItemsFold (m : ℕ → ℤ) (items : List StockItem) : ℕ → ℤ :=
  items.foldl (fun m it =>
    match it.productId with
    | none => m
    | some pid => fun q => if q = pid then m pid + it.quantity else m q) m

/-- The `soldByProduct` map: quantities of items of stock-valid orders. -/
def soldByProductFold (orders : List StockOrder) : ℕ → ℤ :=
  orders.foldl (fun m o =>
    if isOrderValidForStock o.status then soldItemsFold m o.items else m)
    (fun _ => 0)

/-- One group entry of the report (lines 2099–2117), with `sold` the
`soldByProduct` lookup function. -/
def groupEntryOf (db : StockDB) (sold : ℕ → ℤ)
    (gs : ProductGroupStockRow) : StockEntry :=
  let productIds := (db.groupItems.filter
    (fun gi => gi.productGroupId = gs.productGroupId)).map
      ProductGroupItemRow.productId
  let s := productIds.foldl (fun sum pid => sum + sold pid) 0
  { type := "group", productGroupId := some gs.productGroupId,
    productId := none,
    name := some (match db.groups.find?
        (fun g => g.id = gs.productGroupId) with
      | some g => g.name
      | none => "Grupo"),
    opening := gs.quantity, sold := s,
    current := max 0 (gs.quantity - s) }

/-- One standalone product entry of the report (lines 2125–2141). -/
def productEntryOf (db : StockDB) (sold : ℕ → ℤ)
    (r : ProductStockRow) : StockEntry :=
  { type := "product", productGroupId := none,
    productId := some r.productId,
    name := (db.products.find? (fun p => p.id = r.productId)).map
      ProductRow.name,
    opening := r.quantity, sold := sold r.productId,
    current := max 0 (r.quantity - sold r.productId) }

/-- `/api/stock-current` (lines 2060–2153): group entries from
`ProductGroupStock`, then standalone product entries from `ProductStock`
excluding products that belong to any group; `current` is
`Math.max(0, opening - sold)`. -/
def stockCurrentItems (db : StockDB) : List StockEntry :=
  let soldByProduct := soldByProductFold (ordersSince db)
  let productIdsInGroup := db.groupItems.map ProductGroupItemRow.productId
  (db.groupStock.map (groupEntryOf db soldByProduct))
  ++ ((db.productStock.filter
      (fun r => !(productIdsInGroup.contains r.productId))).map
        (productEntryOf db soldByProduct))

/-- Closed form of the sold quantity for one product: the sum of the
item quantities over the stock-valid orders (proved equal to the
handler's `Map` fold). -/
def soldOf (pid : ℕ) (orders : List StockOrder) : ℤ :=
  (orders.map (fun o =>
    if isOrderValidForStock o.status then
      (o.items.map (fun it =>
        if it.productId = some pid then it.quantity else 0)).sum
    else 0)).sum

theorem soldItemsFold_eq (items : List StockItem) (m : ℕ → ℤ) (pid : ℕ) :
    soldItemsFold m items pid
      = m pid + (items.map (fun it =>
          if it.productId = some pid then it.quantity else 0)).sum := by
  induction items generalizing m with
  | nil => simp [soldItemsFold]
  | cons it rest ih =>
    simp only [soldItemsFold, List.foldl_cons] at ih ⊢
    cases hp : it.productId with
    | none =>
      simp only [hp]
      rw [ih]
      simp [hp]
    | some p =>
      simp only [hp]
      rw [ih]
      simp only [List.map_cons, List.sum_cons, hp]
      by_cases hpd : pid = p
      · subst hpd
        simp only [if_true]
        ring
      · rw [if_neg hpd, if_neg (fun h => hpd (by injection h with h; exact h.symm))]
        ring

theorem soldByProductFold_eq (orders : List StockOrder) (pid : ℕ) :
    soldByProductFold orders pid = soldOf pid orders := by
  suffices h : ∀ (m : ℕ → ℤ),
      (orders.foldl (fun m o =>
        if isOrderValidForStock o.status then soldItemsFold m o.items else m)
        m) pid = m pid + soldOf pid orders by
    have := h (fun _ => 0)
    simpa [soldByProductFold] using this
  induction orders with
  | nil => intro m; simp [soldOf]
  | cons o rest ih =>
    intro m
    simp only [List.foldl_cons]
    by_cases hv : isOrderValidForStock o.status
    · rw [if_pos hv, ih, soldItemsFold_eq]
      simp only [soldOf, List.map_cons, List.sum_cons, if_pos hv]
      ring
    · rw [if_neg hv, ih]
      simp only [soldOf, List.map_cons, List.sum_cons, if_neg hv]
      ring

/-- The inventory-ledger scenario of the spec: opening 100, one paid
order of 30 units, one cancelled order of 40 units. -/
def dbC4 : StockDB :=
  { config := some ⟨2026, 0, 1, 0, 0, 0⟩,
    orders := [
      { orderDate := ⟨2026, 0, 5, 0, 0, 0⟩, status := "Pago",
        items := [{ productId := some 1, quantity := 30 }] },
      { orderDate := ⟨2026, 0, 6, 0, 0, 0⟩, status := "Cancelado",
        items := [{ productId := some 1, quantity := 40 }] }],
    groups := [], groupItems := [], groupStock := [],
    productStock := [{ productId := 1, quantity := 100 }],
    products := [{ id := 1, name := "Produto" }] }

/-- The single report entry of `dbC4`. -/
def entryC4 : StockEntry :=
  { type := "product", productGroupId := none, productId := some 1,
    name := some "Produto", opening := 100, sold := 30, current := 70 }

/-- Claim C4 (confirmed): every stock-report entry has
`current = max 0 (opening - sold)` and is therefore never negative; the
sold quantity of a standalone product entry is exactly the sum of that
product's item quantities over the orders on/after the configured start
date whose status is stock-valid, and a group entry sums this over the
group's member products — so cancelled or unpaid orders never reduce
stock.  Concretely: opening 100, 30 units sold in a paid order and 40
units in a cancelled order give current 70. -/
theorem C4_stock_current_floor :
    (∀ db : StockDB, ∀ e ∈ stockCurrentItems db,
        e.current = max 0 (e.opening - e.sold) ∧ 0 ≤ e.current)
  ∧ (∀ db : StockDB, ∀ e ∈ stockCurrentItems db, ∀ pid : ℕ,
        e.productId = some pid → e.sold = soldOf pid (ordersSince db))
  ∧ (∀ db : StockDB, ∀ e ∈ stockCurrentItems db, ∀ gid : ℕ,
        e.productGroupId = some gid →
        e.sold = ((db.groupItems.filter
            (fun gi => gi.productGroupId = gid)).map
              ProductGroupItemRow.productId).foldl
          (fun s pid => s + soldOf pid (ordersSince db)) 0)
  ∧ (isOrderValidForStock "Cancelado" = false
      ∧ isOrderValidForStock "Não pago" = false
      ∧ isOrderValidForStock "Pago" = true)
  ∧ stockCurrentItems dbC4 = [entryC4] := by
  refine ⟨?_, ?_, ?_, by decide, by decide⟩
  · intro db e he
    simp only [stockCurrentItems, List.mem_append, List.mem_map,
      List.mem_filter] at he
    rcases he with ⟨gs, hgs, rfl⟩ | ⟨r, hr, rfl⟩
    · exact ⟨rfl, le_max_left _ _⟩
    · exact ⟨rfl, le_max_left _ _⟩
  · intro db e he pid hpid
    simp only [stockCurrentItems, List.mem_append, List.mem_map,
      List.mem_filter] at he
    rcases he with ⟨gs, hgs, rfl⟩ | ⟨r, hr, rfl⟩
    · simp [groupEntryOf] at hpid
    · have h : r.productId = pid := by simpa [productEntryOf] using hpid
      subst h
      simp [productEntryOf, soldByProductFold_eq]
  · intro db e he gid hgid
    simp only [stockCurrentItems, List.mem_append, List.mem_map,
      List.mem_filter] at he
    rcases he with ⟨gs, hgs, rfl⟩ | ⟨r, hr, rfl⟩
    · have h : gs.productGroupId = gid := by simpa [groupEntryOf] using hgid
      subst h
      simp [groupEntryOf, soldByProductFold_eq]
    · simp [productEntryOf] at hgid

/-- Witness for claim C4 at the concrete inventory-ledger scenario. -/
theorem C4_witness :
    entryC4 ∈ stockCurrentItems dbC4
    ∧ (entryC4.current = max 0 (entryC4.opening - entryC4.sold)
        ∧ 0 ≤ entryC4.current) :=
  ⟨by decide, C4_stock_current_floor.1 dbC4 entryC4 (by decide)⟩

/-! ## Claim C10: every product is counted at most once in the report -/

/-- Which report entry accounts for which product: a group entry covers
the group's member products, a standalone entry covers its own
product. -/
def entryCovers (db : StockDB) (pid : ℕ) (e : StockEntry) : Bool :=
  (match e.productGroupId with
   | some gid => (db.groupItems.filter
       (fun gi => gi.productGroupId = gid)).any
         (fun gi => gi.productId = pid)
   | none => false)
  || e.productId = some pid

theorem entryCovers_groupEntry (db : StockDB) (pid : ℕ) (sold : ℕ → ℤ)
    (gs : ProductGroupStockRow) :
    entryCovers db pid (groupEntryOf db sold gs)
      = (db.groupItems.filter
          (fun gi => gi.productGroupId = gs.productGroupId)).any
            (fun gi => gi.productId = pid) := by
  simp [entryCovers, groupEntryOf]

theorem entryCovers_productEntry (db : StockDB) (pid : ℕ) (sold : ℕ → ℤ)
    (r : ProductStockRow) :
    entryCovers db pid (productEntryOf db sold r)
      = decide (r.productId = pid) := by
  simp [entryCovers, productEntryOf]

theorem filter_map_length {α β : Type} (f : α → β) (p : β → Bool)
    (l : List α) :
    ((l.map f).filter p).length = (l.filter (fun a => p (f a))).length := by
  induction l with
  | nil => rfl
  | cons a t ih =>
    simp only [List.map_cons, List.filter_cons]
    cases h : p (f a) <;> simp [h, ih]

/-- A filter whose members all share one key value has at most one hit
when the keys are duplicate-free. -/
theorem length_filter_le_one_of_key {α β : Type} [DecidableEq β]
    (p : α → Bool) (g : α → β) (x : β) (l : List α)
    (hnd : (l.map g).Nodup) (hkey : ∀ a ∈ l, p a = true → g a = x) :
    (l.filter p).length ≤ 1 := by
  induction l with
  | nil => simp
  | cons a t ih =>
    simp only [List.map_cons, List.nodup_cons] at hnd
    rw [List.filter_cons]
    by_cases hpa : p a = true
    · have ht : t.filter p = [] := by
        rw [List.filter_eq_nil_iff]
        intro b hb hpb
        exact hnd.1 (by
          rw [hkey a (List.mem_cons_self _ _) hpa,
            ← hkey b (List.mem_cons_of_mem _ hb) hpb]
          exact List.mem_map_of_mem g hb)
      rw [if_pos hpa, ht]
      simp
    · rw [if_neg hpa]
      exact ih hnd.2 (fun b hb hpb => hkey b (List.mem_cons_of_mem _ hb) hpb)

/-- With `pid` in some group and duplicate-free memberships and group
stock rows, at most one group entry covers `pid`. -/
theorem groupPart_le_one (db : StockDB) (pid : ℕ) (sold : ℕ → ℤ)
    (h1 : (db.groupItems.map ProductGroupItemRow.productId).Nodup)
    (h2 : (db.groupStock.map ProductGroupStockRow.productGroupId).Nodup) :
    ((db.groupStock.map (groupEntryOf db sold)).filter
      (entryCovers db pid)).length ≤ 1 := by
  rw [filter_map_length]
  by_cases hp : pid ∈ db.groupItems.map ProductGroupItemRow.productId
  · obtain ⟨gi0, hgi0, hpid0⟩ := List.mem_map.mp hp
    apply length_filter_le_one_of_key _ ProductGroupStockRow.productGroupId
      gi0.productGroupId _ h2
    intro gs hgs hcov
    rw [entryCovers_groupEntry] at hcov
    obtain ⟨gi, hgi, hgip⟩ := List.any_eq_true.mp hcov
    rw [List.mem_filter] at hgi
    have hgid : gi.productGroupId = gs.productGroupId := by simpa using hgi.2
    have hgpid : gi.productId = pid := by simpa using hgip
    have hgieq : gi = gi0 :=
      List.inj_on_of_nodup_map h1 hgi.1 hgi0 (by rw [hgpid, hpid0])
    rw [← hgid, hgieq]
  · have hnil : (db.groupStock.filter (fun gs =>
        entryCovers db pid (groupEntryOf db sold gs))) = [] := by
      rw [List.filter_eq_nil_iff]
      intro gs hgs hcov
      rw [entryCovers_groupEntry] at hcov
      obtain ⟨gi, hgi, hgip⟩ := List.any_eq_true.mp hcov
      exact hp (List.mem_map.mpr ⟨gi, (List.mem_filter.mp hgi).1,
        by simpa using hgip⟩)
    rw [hnil]
    simp

/-- A product that belongs to some group is covered by no standalone
entry built from rows outside every group. -/
theorem productPart_nil (db : StockDB) (pid : ℕ) (sold : ℕ → ℤ)
    (ps : List ProductStockRow)
    (hmem : ∀ r ∈ ps,
      r.productId ∉ db.groupItems.map ProductGroupItemRow.productId)
    (hp : pid ∈ db.groupItems.map ProductGroupItemRow.productId) :
    (ps.map (productEntryOf db sold)).filter (entryCovers db pid) = [] := by
  rw [List.filter_eq_nil_iff]
  intro e he
  obtain ⟨r, hr, rfl⟩ := List.mem_map.mp he
  intro hcov
  rw [entryCovers_productEntry] at hcov
  have hrp : r.productId = pid := of_decide_eq_true hcov
  exact hmem r hr (by rw [hrp]; exact hp)

/-- With duplicate-free `ProductStock` rows, at most one standalone
entry covers `pid`. -/
theorem productPart_le_one (db : StockDB) (pid : ℕ) (sold : ℕ → ℤ)
    (ps : List ProductStockRow)
    (hnd : (ps.map ProductStockRow.productId).Nodup) :
    ((ps.map (productEntryOf db sold)).filter
      (entryCovers db pid)).length ≤ 1 := by
  rw [filter_map_length]
  apply length_filter_le_one_of_key _ ProductStockRow.productId pid _ hnd
  intro r hr hcov
  rw [entryCovers_productEntry] at hcov
  exact of_decide_eq_true hcov

/-- Claim C10 (confirmed): under the schema's uniqueness constraints
(each product in at most one `ProductGroupItem` row, one
`ProductGroupStock` row per group, one `ProductStock` row per product),
every product is covered by at most one entry of the stock report, and a
product that belongs to a group has no standalone entry even when it
has its own `ProductStock` row — so no product's sales or opening
quantity are counted twice. -/
theorem C10_stock_single_count :
    ∀ (db : StockDB) (pid : ℕ),
      (db.groupItems.map ProductGroupItemRow.productId).Nodup →
      (db.groupStock.map ProductGroupStockRow.productGroupId).Nodup →
      (db.productStock.map ProductStockRow.productId).Nodup →
      ((stockCurrentItems db).filter (entryCovers db pid)).length ≤ 1
      ∧ (pid ∈ db.groupItems.map ProductGroupItemRow.productId →
          ∀ e ∈ stockCurrentItems db, e.productId ≠ some pid) := by
  intro db pid h1 h2 h3
  constructor
  · simp only [stockCurrentItems, List.filter_append, List.length_append]
    by_cases hp : pid ∈ db.groupItems.map ProductGroupItemRow.productId
    · have hmem : ∀ r ∈ db.productStock.filter (fun r =>
          !((db.groupItems.map ProductGroupItemRow.productId).contains
            r.productId)),
          r.productId ∉ db.groupItems.map ProductGroupItemRow.productId := by
        intro r hr
        have h := (List.mem_filter.mp hr).2
        simpa using h
      rw [productPart_nil db pid _ _ hmem hp]
      have hA := groupPart_le_one db pid (soldByProductFold (ordersSince db))
        h1 h2
      simpa using hA
    · have hnd : ((db.productStock.filter (fun r =>
          !((db.groupItems.map ProductGroupItemRow.productId).contains
            r.productId))).map ProductStockRow.productId).Nodup :=
        List.Nodup.sublist
          (List.Sublist.map _ (List.filter_sublist _)) h3
      have hB := productPart_le_one db pid
        (soldByProductFold (ordersSince db)) _ hnd
      have hnil : (db.groupStock.map (groupEntryOf db
          (soldByProductFold (ordersSince db)))).filter
            (entryCovers db pid) = [] := by
        rw [List.filter_eq_nil_iff]
        intro e he
        obtain ⟨gs, hgs, rfl⟩ := List.mem_map.mp he
        intro hcov
        rw [entryCovers_groupEntry] at hcov
        obtain ⟨gi, hgi, hgip⟩ := List.any_eq_true.mp hcov
        exact hp (List.mem_map.mpr ⟨gi, (List.mem_filter.mp hgi).1,
          by simpa using hgip⟩)
      rw [hnil]
      simpa using hB
  · intro hp e he hpe
    simp only [stockCurrentItems, List.mem_append, List.mem_map,
      List.mem_filter] at he
    rcases he with ⟨gs, hgs, rfl⟩ | ⟨r, hr, rfl⟩
    · simp [groupEntryOf] at hpe
    · have hrp : r.productId = pid := by simpa [productEntryOf] using hpe
      have hout : r.productId ∉
          db.groupItems.map ProductGroupItemRow.productId := by
        simpa using hr.2
      exact hout (by rw [hrp]; exact hp)

/-- A grouped product (id 7) with its own `ProductStock` row: the report
must not count it twice. -/
def dbC10 : StockDB :=
  { config := none, orders := [],
    groups := [{ id := 1, name := "G" }],
    groupItems := [{ productGroupId := 1, productId := 7 }],
    groupStock := [{ productGroupId := 1, quantity := 50 }],
    productStock := [{ productId := 7, quantity := 20 },
      { productId := 8, quantity := 5 }],
    products := [{ id := 7, name := "A" }, { id := 8, name := "B" }] }

/-- Witness for claim C10 at `dbC10` and product 7. -/
theorem C10_witness :
    ((dbC10.groupItems.map ProductGroupItemRow.productId).Nodup
      ∧ (dbC10.groupStock.map ProductGroupStockRow.productGroupId).Nodup
      ∧ (dbC10.productStock.map ProductStockRow.productId).Nodup)
    ∧ (((stockCurrentItems dbC10).filter (entryCovers dbC10 7)).length ≤ 1
        ∧ (7 ∈ dbC10.groupItems.map ProductGroupItemRow.productId →
            ∀ e ∈ stockCurrentItems dbC10, e.productId ≠ some 7)) :=
  ⟨⟨by decide, by decide, by decide⟩,
    C10_stock_single_count dbC10 7 (by decide) (by decide) (by decide)⟩

/-! ## Bills: `updateBillStatus` and the payment routes
(src/index.ts lines 2156–2174 and 2280–2406) -/

/-- A `BillPayment` row. -/
structure BillPayment where
  id : ℕ
  billId : ℕ
  amount : ℚ
  dueDate : JSDate
  paidAt : Option JSDate
  notes : String
deriving DecidableEq

/-- A `Bill` row (fields used by the status recomputation). -/
structure Bill where
  id : ℕ
  totalAmount : ℚ
  status : String
deriving DecidableEq

/-- The bills slice of the database. -/
structure BillsDB where
  bills : List Bill
  payments : List BillPayment
deriving DecidableEq

/-- `totalPaid`: the `reduce` summing `amount || 0` of the installments
whose `paidAt` is set. -/
def totalPaidOf (payments : List BillPayment) : ℚ :=
  payments.foldl (fun s p => s + (if p.paidAt.isSome then p.amount else 0)) 0

/-- The status written by `updateBillStatus` (lines 2167–2169):
`paid` when `totalPaid >= totalAmount`, else `partial` when
`totalPaid > 0`, else `pending`. -/
def billStatusFor (total : ℚ) (pays : List BillPayment) : String :=
  let totalPaid := totalPaidOf pays
  if totalPaid ≥ total then "paid"
  else if totalPaid > 0 then "partial"
  else "pending"

/-- `updateBillStatus` (lines 2156–2174): recompute the bill's status
from its payments; a missing bill leaves the store unchanged. -/
def updateBillStatus (db : BillsDB) (billId : ℕ) : BillsDB :=
  match db.bills.find? (fun b => b.id = billId) with
  | none => db
  | some bill =>
    { db with bills := db.bills.map (fun b =>
        if b.id = billId then
          { b with status := (billStatusFor bill.totalAmount
              (db.payments.filter (fun p => p.billId = billId))) }
        else b) }

/-- `POST /api/bills/:id/payments` after validation: create the row,
then recompute the status. -/
def createPayment (db : BillsDB) (pay : BillPayment) : BillsDB :=
  updateBillStatus { db with payments := db.payments ++ [pay] } pay.billId

/-- The partial update of `PATCH /api/bills/:id/payments/:paymentId`:
only the provided fields are written. -/
structure PaymentPatch where
  amount : Option ℚ
  dueDate : Option JSDate
  paidAt : Option (Option JSDate)
  notes : Option String
deriving DecidableEq

def applyPaymentPatch (pp : PaymentPatch) (p : BillPayment) : BillPayment :=
  { p with amount := pp.amount.getD p.amount,
           dueDate := pp.dueDate.getD p.dueDate,
           paidAt := pp.paidAt.getD p.paidAt,
           notes := pp.notes.getD p.notes }

/-- `PATCH /api/bills/:id/payments/:paymentId`: `updateMany` on
`{ id, billId }`, then recompute the status. -/
def patchPayment (db : BillsDB) (billId paymentId : ℕ)
    (pp : PaymentPatch) : BillsDB :=
  updateBillStatus
    { db with payments := (db.payments.map (fun p =>
        if p.id = paymentId && p.billId = billId then applyPaymentPatch pp p
        else p)) } billId

/-- `DELETE /api/bills/:id/payments/:paymentId`: `deleteMany` on
`{ id, billId }`, then recompute the status. -/
def deletePayment (db : BillsDB) (billId paymentId : ℕ) : BillsDB :=
  updateBillStatus
    { db with payments := (db.payments.filter
        (fun p => !(p.id = paymentId && p.billId = billId))) } billId

/-- The status of bill `billId` as reported by the API. -/
def statusAt (db : BillsDB) (billId : ℕ) : Option String :=
  (db.bills.find? (fun b => b.id = billId)).map Bill.status

/-- After `updateBillStatus` the bill's status is exactly
`billStatusFor` of its payments. -/
theorem updateBillStatus_status (db : BillsDB) (billId : ℕ) (bill : Bill)
    (hfind : db.bills.find? (fun b => b.id = billId) = some bill) :
    ∀ b' ∈ (updateBillStatus db billId).bills, b'.id = billId →
      b'.status = billStatusFor bill.totalAmount
        (db.payments.filter (fun p => p.billId = billId)) := by
  intro b' hb' hid
  unfold updateBillStatus at hb'
  rw [hfind] at hb'
  simp only [List.mem_map] at hb'
  obtain ⟨b, hb, rfl⟩ := hb'
  by_cases h : b.id = billId
  · rw [if_pos h]
  · rw [if_neg h] at hid ⊢
    exact absurd hid h

/-- Witness for claim C3 at the group decomposition of `1.234,56`. -/
theorem C3_witness :
    allDigits ['1'] ∧ allDigits ['2', '3', '4'] ∧ allDigits ['5', '6']
    ∧ (['1'] ++ ['2', '3', '4'] : List Char) ≠ []
    ∧ parseBrNumberL (['1'] ++ '.' :: (['2', '3', '4'] ++ ',' :: ['5', '6']))
        = digitsValQ (['1'] ++ ['2', '3', '4']) + fracVal ['5', '6'] :=
  ⟨by unfold allDigits; decide, by unfold allDigits; decide,
    by unfold allDigits; decide, by decide,
    C3_parseBrNumber_separators.1 ['1'] ['2', '3', '4'] ['5', '6']
      (by unfold allDigits; decide) (by unfold allDigits; decide)
      (by unfold allDigits; decide) (by decide)⟩

def dC5 : JSDate := ⟨2026, 0, 10, 12, 0, 0⟩

def billC5 : Bill := { id := 1, totalAmount := mkRat 300 1, status := "pending" }

def payC5a : BillPayment :=
  { id := 1, billId := 1, amount := mkRat 150 1, dueDate := dC5,
    paidAt := some dC5, notes := "" }

def payC5b : BillPayment :=
  { id := 2, billId := 1, amount := mkRat 150 1, dueDate := dC5,
    paidAt := some dC5, notes := "" }

def dbC5 : BillsDB := { bills := [billC5], payments := [] }

/-! ## `POST /api/product-groups` (src/index.ts lines 1929–1954)

After validation the handler creates the `ProductGroup` row and then
creates one `ProductGroupItem` per product in a sequential loop with no
transaction; a `P2002` unique-constraint violation (the product already
belongs to a group, `productId` being unique) aborts the loop and is
answered with the "já pertence a outro grupo" message, leaving the rows
created so far in place. -/

/-- The store the route touches; `nextGroupId` models the
auto-increment id sequence. -/
structure GroupsDB where
  groups : List ProductGroupRow
  groupItems : List ProductGroupItemRow
  nextGroupId : ℕ
deriving DecidableEq

/-- The membership-creation loop: stops with `false` (P2002 caught as
the "already grouped" response) at the first product that is already a
member of any group. -/
def insertMemberships (db : GroupsDB) (gid : ℕ) :
    List ℕ → GroupsDB × Bool
  | [] => (db, true)
  | pid :: rest =>
    if pid ∈ db.groupItems.map ProductGroupItemRow.productId then (db, false)
    else insertMemberships
      { db with groupItems := db.groupItems ++ [⟨gid, pid⟩] } gid rest

/-- The whole route after validation: create the group row, then the
memberships; `true` means 201-created, `false` the 400 "already
grouped" response. -/
def createProductGroup (db : GroupsDB) (name : String) (ids : List ℕ) :
    GroupsDB × Bool :=
  let gid := db.nextGroupId
  let db1 : GroupsDB :=
    { db with
      groups := db.groups ++ [⟨gid, name⟩],
      nextGroupId := db.nextGroupId + 1 }
  insertMemberships db1 gid ids

/-- A product of the request list that is already grouped always makes
the loop fail. -/
theorem insertMemberships_conflict (ids : List ℕ) :
    ∀ (db : GroupsDB) (gid pid : ℕ), pid ∈ ids →
      pid ∈ db.groupItems.map ProductGroupItemRow.productId →
      (insertMemberships db gid ids).2 = false := by
  induction ids with
  | nil => intro db gid pid h; cases h
  | cons q rest ih =>
    intro db gid pid hmem hin
    rw [insertMemberships]
    by_cases hq : q ∈ db.groupItems.map ProductGroupItemRow.productId
    · rw [if_pos hq]
    · rw [if_neg hq]
      rcases List.mem_cons.mp hmem with rfl | hmem'
      · exact absurd hin hq
      · exact ih _ gid pid hmem' (by
          simp only [List.map_append]
          exact List.mem_append_left _ hin)

/-- The loop only appends membership rows and never touches the group
list or the id sequence. -/
theorem insertMemberships_frame (ids : List ℕ) :
    ∀ (db : GroupsDB) (gid : ℕ),
      ((insertMemberships db gid ids).1.groups = db.groups)
      ∧ ((insertMemberships db gid ids).1.groupItems.take
          db.groupItems.length = db.groupItems)
      ∧ ((insertMemberships db gid ids).1.nextGroupId = db.nextGroupId) := by
  induction ids with
  | nil =>
    intro db gid
    exact ⟨rfl, by
      show db.groupItems.take db.groupItems.length = db.groupItems
      simp, rfl⟩
  | cons q rest ih =>
    intro db gid
    rw [insertMemberships]
    by_cases hq : q ∈ db.groupItems.map ProductGroupItemRow.productId
    · rw [if_pos hq]
      exact ⟨rfl, by
        show db.groupItems.take db.groupItems.length = db.groupItems
        simp, rfl⟩
    · rw [if_neg hq]
      have h4 := ih { db with groupItems :=
        db.groupItems ++ [ProductGroupItemRow.mk gid q] } gid
      dsimp only at h4
      refine ⟨h4.1, ?_, h4.2.2⟩
      have key : ((insertMemberships
          { db with groupItems :=
            db.groupItems ++ [ProductGroupItemRow.mk gid q] } gid
            rest).1.groupItems.take
              (db.groupItems ++ [ProductGroupItemRow.mk gid q]).length).take
            db.groupItems.length = db.groupItems := by
        rw [h4.2.1, List.take_left]
      rw [List.take_take] at key
      rwa [Nat.min_eq_left (by simp)] at key

/-- The pre-existing group with product 5, before a request to group
products 6 and 5 under a new name. -/
def dbC7 : GroupsDB :=
  { groups := [⟨1, "G1"⟩], groupItems := [⟨1, 5⟩], nextGroupId := 2 }

/-- Counterexample to claim C7: the failed creation returns the
"already grouped" error, yet the store is modified. -/
theorem C7_counterexample :
    (createProductGroup dbC7 "G2" [6, 5]).2 = false
    ∧ ¬ ((createProductGroup dbC7 "G2" [6, 5]).1 = dbC7) := by decide

/-- Claim C7 (corrected): grouping a product that already belongs to
another group does fail with the user-facing "already grouped" response
rather than a crash, and the pre-existing groups and memberships are
unchanged; but the failure does not leave the store unmodified — the
new group row always persists (with any memberships created before the
conflict), because the loop runs without a transaction.  Concretely,
grouping `[6, 5]` against `dbC7` errors yet leaves behind group 2 and
membership `(2, 6)`. -/
theorem C7_group_create_amended :
    (∀ (db : GroupsDB) (name : String) (ids : List ℕ) (pid : ℕ),
        pid ∈ ids →
        pid ∈ db.groupItems.map ProductGroupItemRow.productId →
        (createProductGroup db name ids).2 = false)
  ∧ (∀ (db : GroupsDB) (name : String) (ids : List ℕ),
        (createProductGroup db name ids).1.groups
          = db.groups ++ [⟨db.nextGroupId, name⟩])
  ∧ (∀ (db : GroupsDB) (name : String) (ids : List ℕ),
        (createProductGroup db name ids).1.groupItems.take
          db.groupItems.length = db.groupItems)
  ∧ (createProductGroup dbC7 "G2" [6, 5]).2 = false
  ∧ (createProductGroup dbC7 "G2" [6, 5]).1
      = { groups := [⟨1, "G1"⟩, ⟨2, "G2"⟩],
          groupItems := [⟨1, 5⟩, ⟨2, 6⟩], nextGroupId := 3 } := by
  refine ⟨?_, ?_, ?_, by decide, by decide⟩
  · intro db name ids pid hmem hin
    exact insertMemberships_conflict ids
      { db with
        groups := db.groups ++ [⟨db.nextGroupId, name⟩],
        nextGroupId := db.nextGroupId + 1 } db.nextGroupId pid hmem hin
  · intro db name ids
    exact (insertMemberships_frame ids
      { db with
        groups := db.groups ++ [⟨db.nextGroupId, name⟩],
        nextGroupId := db.nextGroupId + 1 } db.nextGroupId).1
  · intro db name ids
    exact (insertMemberships_frame ids
      { db with
        groups := db.groups ++ [⟨db.nextGroupId, name⟩],
        nextGroupId := db.nextGroupId + 1 } db.nextGroupId).2.1

/-- Witness for claim C7's conflict clause at the concrete store. -/
theorem C7_witness :
    (5 ∈ ([6, 5] : List ℕ)
      ∧ 5 ∈ dbC7.groupItems.map ProductGroupItemRow.productId)
    ∧ (createProductGroup dbC7 "G2" [6, 5]).2 = false :=
  ⟨⟨by decide, by decide⟩,
    C7_group_create_amended.1 dbC7 "G2" [6, 5] 5 (by decide) (by decide)⟩

/-! ## Simulation: `/api/simulation` fixed-cost allocation
(src/index.ts lines 2529–2652, `fixedCostProportional` at 2605–2619) -/

/-- An `Order` as read by the simulation (claim-relevant fields). -/
structure SimOrder where
  orderDate : JSDate
  status : String
  source : String
  totalPrice : ℚ
deriving DecidableEq

/-- The month window's exclusive upper bound:
`new Date(getFullYear(), getMonth() + 1, 1)`. -/
def monthEndOf (monthStart : JSDate) : JSDate :=
  { year := monthStart.year, month0 := monthStart.month0 + 1, day := 1,
    hour := 0, minute := 0, second := 0 }

/-- The `NOT` clauses of the order query: status must not contain
`ancelado` nor `Não pago`, case-insensitively. -/
def simOrderValid (status : String) : Bool :=
  !(containsSub (jsToLower status.data) (jsToLower "ancelado".data))
  && !(containsSub (jsToLower status.data) (jsToLower "Não pago".data))

/-- The simulation's order query: month window, valid status, and the
channel filter (absent when `channel = "all"`). -/
def simOrders (orders : List SimOrder) (monthStart : JSDate)
    (channel : String) : List SimOrder :=
  orders.filter (fun o =>
    dateLeB monthStart o.orderDate
    && dateLtB o.orderDate (monthEndOf monthStart)
    && simOrderValid o.status
    && (channel = "all" || o.source = channel))

/-- `reduce((s, o) => s + (o.totalPrice || 0), 0)`. -/
def revenueOf (orders : List SimOrder) : ℚ :=
  orders.foldl (fun s o => s + o.totalPrice) 0

/-- `fixedCostProportional` (lines 2605–2619): the full fixed cost for
`all`, otherwise scaled by the channel's share of the month's revenue
(when that revenue is positive). -/
def fixedCostProportional (orders : List SimOrder) (monthStart : JSDate)
    (channel : String) (fixedCost : ℚ) : ℚ :=
  let totalRevenue := revenueOf (simOrders orders monthStart channel)
  let allForProportion :=
    if channel ≠ "all" then simOrders orders monthStart "all"
    else simOrders orders monthStart channel
  let totalRevenueAll := revenueOf allForProportion
  if totalRevenueAll > 0 ∧ channel ≠ "all" then
    fixedCost * (totalRevenue / totalRevenueAll)
  else fixedCost

/-- January 2026 with a 100 shopee order and a 50 tray order. -/
def msC6 : JSDate := ⟨2026, 0, 1, 0, 0, 0⟩

def ordC6a : SimOrder :=
  { orderDate := ⟨2026, 0, 5, 0, 0, 0⟩, status := "Pago",
    source := "shopee", totalPrice := mkRat 100 1 }

def ordC6b : SimOrder :=
  { orderDate := ⟨2026, 0, 20, 0, 0, 0⟩, status := "Pago",
    source := "tray", totalPrice := mkRat 50 1 }

/-- Claim C6 (confirmed): in the simulation the fixed-cost deduction
equals the full caller-supplied `fixedCost` when the channel scope is
`all`, and for a single channel (with positive month revenue) it equals
`fixedCost` times that channel's valid-order revenue divided by the
month's valid-order revenue across all channels.  Concretely: shopee 100
and tray 50 in the month with `fixedCost` 30 give a 20 deduction for
channel `shopee` and the full 30 for `all`. -/
theorem C6_simulation_fixed_cost :
    (∀ (orders : List SimOrder) (monthStart : JSDate) (fixedCost : ℚ),
        fixedCostProportional orders monthStart "all" fixedCost = fixedCost)
  ∧ (∀ (orders : List SimOrder) (monthStart : JSDate) (channel : String)
        (fixedCost : ℚ),
        channel ≠ "all" →
        0 < revenueOf (simOrders orders monthStart "all") →
        fixedCostProportional orders monthStart channel fixedCost
          = fixedCost
            * (revenueOf (simOrders orders monthStart channel)
                / revenueOf (simOrders orders monthStart "all")))
  ∧ fixedCostProportional [ordC6a, ordC6b] msC6 "shopee" (mkRat 30 1)
      = mkRat 20 1
  ∧ fixedCostProportional [ordC6a, ordC6b] msC6 "all" (mkRat 30 1)
      = mkRat 30 1 := by
  refine ⟨?_, ?_, ?_, ?_⟩
  · intro orders monthStart fixedCost
    simp [fixedCostProportional]
  · intro orders monthStart channel fixedCost hch hrev
    simp only [fixedCostProportional, if_pos hch]
    rw [if_pos ⟨hrev, hch⟩]
  · simp +decide [fixedCostProportional, simOrders, simOrderValid,
      monthEndOf, dateLeB, dateLtB, jsToLower, jsToLowerChar, containsSub,
      startsWithL, ordC6a, ordC6b, msC6, revenueOf, List.filter,
      List.foldl, Rat.mkRat_eq_div]
    norm_num
  · simp +decide [fixedCostProportional, simOrders, simOrderValid,
      monthEndOf, dateLeB, dateLtB, jsToLower, jsToLowerChar, containsSub,
      startsWithL, ordC6a, ordC6b, msC6, revenueOf, List.filter,
      List.foldl, Rat.mkRat_eq_div]

/-- Witness for claim C6 at the concrete two-channel month. -/
theorem C6_witness :
    ("shopee" : String) ≠ "all"
    ∧ 0 < revenueOf (simOrders [ordC6a, ordC6b] msC6 "all")
    ∧ fixedCostProportional [ordC6a, ordC6b] msC6 "shopee" (mkRat 30 1)
        = mkRat 30 1
          * (revenueOf (simOrders [ordC6a, ordC6b] msC6 "shopee")
              / revenueOf (simOrders [ordC6a, ordC6b] msC6 "all")) := by
  have hrev : 0 < revenueOf (simOrders [ordC6a, ordC6b] msC6 "all") := by
    simp +decide [simOrders, simOrderValid, monthEndOf, dateLeB, dateLtB,
      jsToLower, jsToLowerChar, containsSub, startsWithL, ordC6a, ordC6b,
      msC6, revenueOf, List.filter, List.foldl, Rat.mkRat_eq_div]
    norm_num
  exact ⟨by decide, hrev,
    C6_simulation_fixed_cost.2.1 [ordC6a, ordC6b] msC6 "shopee"
      (mkRat 30 1) (by decide) hrev⟩

/-- Claim C5 (confirmed): after every payment creation, update, or
deletion the bill's status is recomputed from the sum of the paid
installments' amounts: `paid` when the sum is `>=` the bill total,
`partial` when it is positive and below the total, `pending` when it is
zero (for a positive total); there is no terminal lock, so deleting a
payment reverts a `paid` bill to `partial` or `pending`.  Concretely on
a 300-total bill: one paid 150 installment gives `partial`, two give
`paid`, deleting one of the two reverts to `partial` and deleting the
remaining one reverts to `pending`. -/
theorem C5_bill_status :
    (∀ (db : BillsDB) (billId : ℕ) (bill : Bill),
        db.bills.find? (fun b => b.id = billId) = some bill →
        ∀ b' ∈ (updateBillStatus db billId).bills, b'.id = billId →
          b'.status = billStatusFor bill.totalAmount
            (db.payments.filter (fun p => p.billId = billId)))
  ∧ (∀ (db : BillsDB) (pay : BillPayment) (bill : Bill),
        db.bills.find? (fun b => b.id = pay.billId) = some bill →
        ∀ b' ∈ (createPayment db pay).bills, b'.id = pay.billId →
          b'.status = billStatusFor bill.totalAmount
            ((db.payments ++ [pay]).filter (fun p => p.billId = pay.billId)))
  ∧ (∀ (db : BillsDB) (billId paymentId : ℕ) (pp : PaymentPatch)
        (bill : Bill),
        db.bills.find? (fun b => b.id = billId) = some bill →
        ∀ b' ∈ (patchPayment db billId paymentId pp).bills, b'.id = billId →
          b'.status = billStatusFor bill.totalAmount
            ((db.payments.map (fun p =>
                if p.id = paymentId && p.billId = billId then
                  applyPaymentPatch pp p
                else p)).filter (fun p => p.billId = billId)))
  ∧ (∀ (db : BillsDB) (billId paymentId : ℕ) (bill : Bill),
        db.bills.find? (fun b => b.id = billId) = some bill →
        ∀ b' ∈ (deletePayment db billId paymentId).bills, b'.id = billId →
          b'.status = billStatusFor bill.totalAmount
            ((db.payments.filter (fun p =>
                !(p.id = paymentId && p.billId = billId))).filter
              (fun p => p.billId = billId)))
  ∧ (∀ (total : ℚ) (pays : List BillPayment),
        (totalPaidOf pays ≥ total → billStatusFor total pays = "paid")
        ∧ (totalPaidOf pays < total → 0 < totalPaidOf pays →
            billStatusFor total pays = "partial")
        ∧ (totalPaidOf pays = 0 → 0 < total →
            billStatusFor total pays = "pending"))
  ∧ (statusAt (createPayment dbC5 payC5a) 1 = some "partial"
      ∧ statusAt (createPayment (createPayment dbC5 payC5a) payC5b) 1
          = some "paid"
      ∧ statusAt (deletePayment
            (createPayment (createPayment dbC5 payC5a) payC5b) 1 2) 1
          = some "partial"
      ∧ statusAt (deletePayment (createPayment dbC5 payC5a) 1 1) 1
          = some "pending") := by
  refine ⟨updateBillStatus_status, ?_, ?_, ?_, ?_, ?_, ?_, ?_, ?_⟩
  · intro db pay bill h
    exact updateBillStatus_status _ pay.billId bill h
  · intro db billId paymentId pp bill h
    exact updateBillStatus_status _ billId bill h
  · intro db billId paymentId bill h
    exact updateBillStatus_status _ billId bill h
  · intro total pays
    refine ⟨?_, ?_, ?_⟩
    · intro h
      simp only [billStatusFor]
      rw [if_pos h]
    · intro h1 h2
      simp only [billStatusFor]
      rw [if_neg (not_le.mpr h1), if_pos h2]
    · intro h1 h2
      simp only [billStatusFor]
      rw [if_neg (not_le.mpr (show totalPaidOf pays < total by
          rw [h1]; exact h2)),
        if_neg (show ¬ totalPaidOf pays > 0 by rw [h1]; exact lt_irrefl 0)]
  · norm_num [statusAt, createPayment, updateBillStatus, billStatusFor,
      totalPaidOf, dbC5, billC5, payC5a, List.find?, List.filter,
      List.foldl, Rat.mkRat_eq_div]
  · norm_num [statusAt, createPayment, updateBillStatus, billStatusFor,
      totalPaidOf, dbC5, billC5, payC5a, payC5b, List.find?, List.filter,
      List.foldl, Rat.mkRat_eq_div]
  · norm_num [statusAt, createPayment, deletePayment, updateBillStatus,
      billStatusFor, totalPaidOf, dbC5, billC5, payC5a, payC5b,
      List.find?, List.filter, List.foldl, Rat.mkRat_eq_div]
  · norm_num [statusAt, createPayment, deletePayment, updateBillStatus,
      billStatusFor, totalPaidOf, dbC5, billC5, payC5a, List.find?,
      List.filter, List.foldl, Rat.mkRat_eq_div]

/-- The 300-total bill after the recomputation that follows the first
150 payment. -/
def billC5partial : Bill :=
  { id := 1, totalAmount := mkRat 300 1, status := "partial" }

/-- Witness for claim C5: the status formula applied to the concrete
one-payment store. -/
theorem C5_witness :
    (BillsDB.mk [billC5] [payC5a]).bills.find? (fun b => b.id = 1)
        = some billC5
    ∧ billC5partial ∈ (updateBillStatus (BillsDB.mk [billC5] [payC5a]) 1).bills
    ∧ billC5partial.status = billStatusFor billC5.totalAmount
        ((BillsDB.mk [billC5] [payC5a]).payments.filter
          (fun p => p.billId = 1)) := by
  refine ⟨by decide, ?_, ?_⟩
  · norm_num [updateBillStatus, billStatusFor, totalPaidOf, billC5,
      billC5partial, payC5a, List.find?, List.filter, List.foldl,
      Rat.mkRat_eq_div]
  · exact C5_bill_status.1 (BillsDB.mk [billC5] [payC5a]) 1 billC5
      (by decide) billC5partial
      (by norm_num [updateBillStatus, billStatusFor, totalPaidOf, billC5,
        billC5partial, payC5a, List.find?, List.filter, List.foldl,
        Rat.mkRat_eq_div])
      (by decide)

end ShopSmart
